import Mathlib

/-!
Verification of the scale-limit analyzer of the function-runner repository.

The repository's `src/bluejay_schema_analyzer.rs` delegates the whole cost
computation to `crate::scale_limits_analyzer::ScaleLimitsAnalyzer`, whose
source file is not part of the repository snapshot (only its caller and its
tests are).  The analyzer itself is therefore modelled from the
specification (sections 3 and 4 of the design document): the data model for
schema, query and response sample, the per-selection-set merge of duplicate
field selections, the depth-first traversal that accumulates
`rate * cardinality_multiplier * own_list_length` contributions, and the
floor/ceiling clamp `min (max raw 1) 10`.

Numbers: the Rust implementation uses `f64`; all the arithmetic relevant to
the claims (products of rates with list lengths, the constants 1.0 and 10.0)
is modelled with exact rationals `ℚ`.

`main.rs`'s `ScaleLimits` visitor (the constant analyzer of claim C10) is
present in the snapshot and is embedded directly from that source.
-/

/-- Modelled from the spec: declared output type of a field — scalar,
object-of-type (referenced by type name), or list-of-type with arbitrary
nesting (`src/scale_limits_analyzer.rs` is missing from the snapshot; this
is the field-type shape of spec section 3). -/
inductive FieldType where
  | scalar : FieldType
  | object (tname : String) : FieldType
  | list (item : FieldType) : FieldType
deriving DecidableEq

/-- Modelled from the spec: a FieldDefinition identifies a field by name,
its declared output type, and an optional cost rate (`rate: float ≥ 0`;
absence of a rate is equivalent to rate 0). -/
structure FieldDefinition where
  name : String
  type : FieldType
  rate : Option ℚ
deriving DecidableEq

/-- Modelled from the spec: a named object type holding its field
definitions (keys unique per type). -/
structure TypeDefinition where
  name : String
  fields : List FieldDefinition
deriving DecidableEq

/-- Modelled from the spec: the Schema Model — the type definitions
together with the name of the root ("Query") type. -/
structure SchemaModel where
  types : List TypeDefinition
  queryType : String
deriving DecidableEq

/-- Modelled from the spec: a SelectionNode names a schema field and
carries its nested selections (empty for scalar selections). -/
inductive SelectionNode where
  | mk (name : String) (children : List SelectionNode)

def SelectionNode.name : SelectionNode → String
  | .mk n _ => n

def SelectionNode.children : SelectionNode → List SelectionNode
  | .mk _ cs => cs

/-- Modelled from the spec: a ResponseValue is a tagged value — `Null`,
`Scalar`, `List`, or `Object` (a mapping from response key to value).  The
analyzer never inspects scalar payloads, only list lengths and object keys,
so the scalar tag carries no payload. -/
inductive ResponseValue where
  | null : ResponseValue
  | scalar : ResponseValue
  | list (elems : List ResponseValue) : ResponseValue
  | object (fields : List (String × ResponseValue)) : ResponseValue

/-- Modelled from the spec: analysis error kinds — a selection naming a
field absent from the resolved type (carrying the offending field name and
enclosing type name), or a response value whose shape disagrees with the
declared shape (carrying the path label). -/
inductive AnalysisError where
  | schemaResolution (fieldName : String) (typeName : String) : AnalysisError
  | shapeMismatch (path : String) : AnalysisError
deriving DecidableEq

/-- Schema Model lookup: resolve a field name inside a named type. -/
def resolveField (s : SchemaModel) (tname fname : String) : Option FieldDefinition :=
  (s.types.find? (fun td => td.name = tname)).bind
    (fun td => td.fields.find? (fun fd => fd.name = fname))

/-- Rate lookup with default 0 when the annotation is absent. -/
def rateOf (fd : FieldDefinition) : ℚ := fd.rate.getD 0

/-- Locate the ResponseValue stored under a response key in an object. -/
def lookupResponseKey (gs : List (String × ResponseValue)) (n : String) : Option ResponseValue :=
  (gs.find? (fun p => p.1 = n)).map Prod.snd

/-- Children of all selections with the given field name, concatenated in
occurrence order. -/
def childrenOf (n : String) : List SelectionNode → List SelectionNode
  | [] => []
  | t :: rest =>
      if t.name = n then t.children ++ childrenOf n rest else childrenOf n rest

/-- Modelled from the spec: the per-selection-set merge (spec section 4.2) —
a deduplicated enumeration of distinct field visits, grouping by field name
in first-seen order; the merged visit's children are the concatenation, in
occurrence order, of all occurrences' children (duplicates among them are
collapsed again by the next level's merge). -/
def mergeSelections : List SelectionNode → List SelectionNode
  | [] => []
  | t :: rest =>
      SelectionNode.mk t.name (t.children ++ childrenOf t.name rest) ::
        mergeSelections (rest.filter (fun u => u.name ≠ t.name))
termination_by l => l.length
decreasing_by
  simp_wf
  exact Nat.lt_succ_of_le (List.length_filter_le _ _)

-- Size of a selection tree, used as the termination measure of the traversal.
mutual
def selSize : SelectionNode → Nat
  | .mk _ cs => 1 + selListSize cs
def selListSize : List SelectionNode → Nat
  | [] => 0
  | t :: ts => selSize t + selListSize ts
end

def ftypeSize : FieldType → Nat
  | .scalar => 1
  | .object _ => 1
  | .list t => 1 + ftypeSize t

theorem selSize_pos (t : SelectionNode) : 1 ≤ selSize t := by
  cases t with
  | mk n cs => simp [selSize]

theorem selSize_eq (t : SelectionNode) : selSize t = 1 + selListSize t.children := by
  cases t with
  | mk n cs => simp [selSize, SelectionNode.children]

theorem selListSize_append (a b : List SelectionNode) :
    selListSize (a ++ b) = selListSize a + selListSize b := by
  induction a with
  | nil => simp [selListSize]
  | cons t ts ih => simp [selListSize, ih]; ring

theorem childrenOf_filter_size (n : String) (l : List SelectionNode) :
    selListSize (childrenOf n l) +
      selListSize (l.filter (fun u => u.name ≠ n)) ≤ selListSize l := by
  induction l with
  | nil => simp [childrenOf, selListSize]
  | cons t rest ih =>
      cases t with
      | mk nm cs =>
          by_cases h : nm = n
          · simp [childrenOf, SelectionNode.name, SelectionNode.children, h,
              selListSize_append, selListSize, selSize, List.filter_cons] at ih ⊢
            omega
          · simp [childrenOf, SelectionNode.name, SelectionNode.children, h,
              selListSize, selSize, List.filter_cons] at ih ⊢
            omega

theorem mergeSelections_size (l : List SelectionNode) :
    selListSize (mergeSelections l) ≤ selListSize l := by
  induction l using mergeSelections.induct with
  | case1 => simp [mergeSelections]
  | case2 t rest ih =>
      have h := childrenOf_filter_size t.name rest
      cases t with
      | mk nm cs =>
          simp only [mergeSelections, selListSize, selSize, selListSize_append,
            SelectionNode.name, SelectionNode.children] at *
          omega

theorem lt_visits_tail (t : SelectionNode) (ts : List SelectionNode) :
    4 * selListSize ts + 3 < 4 * selListSize (t :: ts) + 3 := by
  have := selSize_pos t
  simp only [selListSize]
  omega

/-- Error-propagating addition of two traversal results: the first error
wins, otherwise the values add. -/
def exAdd (a b : Except AnalysisError ℚ) : Except AnalysisError ℚ :=
  match a with
  | .error e => .error e
  | .ok x =>
      match b with
      | .error e => .error e
      | .ok y => .ok (x + y)

mutual
/-- Modelled from the spec: evaluate the distinct field visits of one
selection set, in order, against the current object value, summing the
contributions (spec section 4.4 step 2). -/
def analyzeVisits (s : SchemaModel) (tname : String) (visits : List SelectionNode)
    (gs : List (String × ResponseValue)) (mult : ℚ) : Except AnalysisError ℚ :=
  match visits with
  | [] => .ok 0
  | sel :: rest =>
      exAdd (analyzeVisit s tname sel gs mult) (analyzeVisits s tname rest gs mult)
termination_by (4 * selListSize visits + 3, 0)
decreasing_by
  · apply Prod.Lex.left
    simp only [selListSize]
    omega
  · apply Prod.Lex.left
    apply lt_visits_tail

/-- Modelled from the spec: evaluate one distinct field visit — resolve the
field definition (failure is a hard error carrying the field and type
names), locate the response value at the field's response key (absence is
cardinality 0: no contribution, no descent), then weigh the value (spec
section 4.4 steps a–b). -/
def analyzeVisit (s : SchemaModel) (tname : String) (sel : SelectionNode)
    (gs : List (String × ResponseValue)) (mult : ℚ) : Except AnalysisError ℚ :=
  match resolveField s tname sel.name with
  | none => .error (.schemaResolution sel.name tname)
  | some fd =>
      match lookupResponseKey gs sel.name with
      | none => .ok 0
      | some v => analyzeFieldValue s fd.type sel.children sel.name (rateOf fd) v mult
termination_by (4 * selSize sel + 2, 0)
decreasing_by
  apply Prod.Lex.left
  simp only [selSize_eq]
  omega

/-- Modelled from the spec: the field's own contribution and its descent
(spec section 4.4 steps c–e and section 4.3).  A scalar field contributes
`rate * mult` (own list length 1); an object field contributes `rate * mult`
and descends into the nested object with the same multiplier; a list field
contributes `rate * mult * length` and, when it has nested selections,
descends into each element with the updated multiplier `mult * length`.
`Null` in place of an expected object or list is cardinality 0 (no
contribution, no descent); any other shape disagreement is a hard error. -/
def analyzeFieldValue (s : SchemaModel) (ftype : FieldType) (children : List SelectionNode)
    (fname : String) (rate : ℚ) (v : ResponseValue) (mult : ℚ) : Except AnalysisError ℚ :=
  match ftype, v with
  | .scalar, .null => .ok (rate * mult)
  | .scalar, .scalar => .ok (rate * mult)
  | .scalar, _ => .error (.shapeMismatch fname)
  | .object _, .null => .ok 0
  | .object tn, .object gs =>
      exAdd (.ok (rate * mult)) (analyzeVisits s tn (mergeSelections children) gs mult)
  | .object _, _ => .error (.shapeMismatch fname)
  | .list _, .null => .ok 0
  | .list it, .list es =>
      exAdd (.ok (rate * mult * (es.length : ℚ)))
        (if children.isEmpty then .ok 0
         else descendElems s it children fname es (mult * (es.length : ℚ)))
  | .list _, _ => .error (.shapeMismatch fname)
termination_by (4 * (1 + selListSize children) + 1, ftypeSize ftype + sizeOf v)
decreasing_by
  · apply Prod.Lex.left
    have := mergeSelections_size children
    omega
  · apply Prod.Lex.right
    simp only [ftypeSize, ResponseValue.list.sizeOf_spec]
    omega

/-- Modelled from the spec: descent into one list element at the item type —
scalar item types end the descent, object elements evaluate the nested
selections with the current multiplier, nested list elements descend further
with the multiplier scaled by their own length. -/
def descendValue (s : SchemaModel) (itemType : FieldType) (children : List SelectionNode)
    (fname : String) (v : ResponseValue) (mult : ℚ) : Except AnalysisError ℚ :=
  match itemType, v with
  | .scalar, _ => .ok 0
  | .object _, .null => .ok 0
  | .object tn, .object gs => analyzeVisits s tn (mergeSelections children) gs mult
  | .object _, _ => .error (.shapeMismatch fname)
  | .list _, .null => .ok 0
  | .list it, .list es => descendElems s it children fname es (mult * (es.length : ℚ))
  | .list _, _ => .error (.shapeMismatch fname)
termination_by (4 * (1 + selListSize children) + 1, ftypeSize itemType + sizeOf v)
decreasing_by
  · apply Prod.Lex.left
    have := mergeSelections_size children
    omega
  · apply Prod.Lex.right
    simp only [ftypeSize, ResponseValue.list.sizeOf_spec]
    omega

/-- Modelled from the spec: evaluate the nested selections once per list
element, summing the element results. -/
def descendElems (s : SchemaModel) (itemType : FieldType) (children : List SelectionNode)
    (fname : String) (es : List ResponseValue) (mult : ℚ) : Except AnalysisError ℚ :=
  match es with
  | [] => .ok 0
  | e :: rest =>
      exAdd (descendValue s itemType children fname e mult)
        (descendElems s itemType children fname rest mult)
termination_by (4 * (1 + selListSize children) + 1, ftypeSize itemType + 1 + sizeOf es)
decreasing_by
  · apply Prod.Lex.right
    simp only [List.cons.sizeOf_spec]
    omega
  · apply Prod.Lex.right
    simp only [List.cons.sizeOf_spec]
    omega
end

/-- Modelled from the spec: the fixed floor of the reported scale factor. -/
def MIN_SCALE : ℚ := 1

/-- Modelled from the spec: the fixed ceiling of the reported scale factor. -/
def MAX_SCALE : ℚ := 10

/-- Modelled from the spec: the floor/ceiling policy
`clamp(raw, MIN_SCALE, MAX_SCALE)`. -/
def clampScale (x : ℚ) : ℚ := min (max x MIN_SCALE) MAX_SCALE

def rootLabel : String := "<root>"

/-- Modelled from the spec: the raw accumulated cost of the whole traversal.
The root selection set is evaluated against the root value with cardinality
multiplier 1; a `Null` root contributes nothing, and a non-object non-null
root is a shape mismatch. -/
def rawAnalyze (s : SchemaModel) (query : List SelectionNode)
    (sample : ResponseValue) : Except AnalysisError ℚ :=
  match sample with
  | .null => .ok 0
  | .object gs => analyzeVisits s s.queryType (mergeSelections query) gs 1
  | _ => .error (.shapeMismatch rootLabel)

/-- Modelled from the spec: the public entry point
`analyze(schema, query, sample) → Result of float` — the clamp of the raw
accumulated cost, or the traversal's error. -/
def analyze (s : SchemaModel) (query : List SelectionNode)
    (sample : ResponseValue) : Except AnalysisError ℚ :=
  match rawAnalyze s query sample with
  | .error e => .error e
  | .ok raw => .ok (clampScale raw)

/-! Basic facts about `exAdd`. -/

theorem exAdd_ok_iff (a b : Except AnalysisError ℚ) (r : ℚ) :
    exAdd a b = .ok r ↔ ∃ x y, a = .ok x ∧ b = .ok y ∧ r = x + y := by
  cases a with
  | error e => simp [exAdd]
  | ok x =>
      cases b with
      | error e => simp [exAdd]
      | ok y =>
          simp only [exAdd, Except.ok.injEq]
          constructor
          · intro h
            exact ⟨x, y, rfl, rfl, h.symm⟩
          · rintro ⟨x', y', hx, hy, hr⟩
            subst hx
            subst hy
            exact hr.symm

theorem exAdd_ok_ok (x y : ℚ) :
    exAdd (.ok x) (.ok y) = (.ok (x + y) : Except AnalysisError ℚ) := rfl

theorem exAdd_zero_left (b : Except AnalysisError ℚ) : exAdd (.ok 0) b = b := by
  cases b with
  | error e => rfl
  | ok y => simp [exAdd]

theorem exAdd_assoc (a b c : Except AnalysisError ℚ) :
    exAdd (exAdd a b) c = exAdd a (exAdd b c) := by
  cases a <;> cases b <;> cases c <;> simp [exAdd, add_assoc]

/-! The `ScaleLimits` analyzer of `main.rs` (claim C10).  `ScaleLimits` is a
unit struct; its `Visitor::new` ignores every argument, no visit hook
carries any state, and `Analyzer::into_output` returns the constant `1.0`.
The bluejay `Orchestrator` (an external library collaborator) constructs the
visitor, feeds it the operation via an arbitrary sequence of visit steps and
returns `into_output`; the steps are modelled as an arbitrary list of state
transformers. -/

structure ScaleLimits where

def ScaleLimits.new {α β γ δ : Type} (_operationDefinition : α)
    (_schemaDefinition : β) (_variableValues : γ) (_cache : δ) : ScaleLimits := ⟨⟩

def ScaleLimits.into_output (_ : ScaleLimits) : ℚ := 1

def ScaleLimitsAnalyzer.analyze {α β γ δ : Type}
    (steps : List (ScaleLimits → ScaleLimits)) (operationDefinition : α)
    (schemaDefinition : β) (variableValues : γ) (cache : δ) : ℚ :=
  (steps.foldl (fun st f => f st)
    (ScaleLimits.new operationDefinition schemaDefinition variableValues cache)).into_output

/-- The `analyze_schema_definition` path of `main.rs`: parse results of the
schema and the query are supplied by the external parser (modelled as
`Option`s); when both are present the scale factor is whatever the
`ScaleLimits` orchestration produces. -/
def main_analyze_schema_definition {α β : Type} (parsedSchema : Option α)
    (parsedQuery : Option β) (steps : List (ScaleLimits → ScaleLimits)) : Option ℚ :=
  match parsedSchema, parsedQuery with
  | some sch, some q => some (ScaleLimitsAnalyzer.analyze steps q sch () ())
  | _, _ => none

/-! Concrete fixtures: the four scenario tests of the specification
(spec section 8), matching the tests in `src/bluejay_schema_analyzer.rs`. -/

def queryTypeName : String := "Query"

def fieldLabel : String := "field"

def cartLinesLabel : String := "cartLines"

/-- Schema of scenario test 1: `field: String @scaleLimits(rate: 0.005)`. -/
def schemaScalarField : SchemaModel :=
  ⟨[⟨queryTypeName, [⟨fieldLabel, .scalar, some (0.005 : ℚ)⟩]⟩], queryTypeName⟩

/-- Schema of scenario tests 2 and 3: `cartLines: [String] @scaleLimits(rate: 0.005)`. -/
def schemaCartLines : SchemaModel :=
  ⟨[⟨queryTypeName, [⟨cartLinesLabel, .list .scalar, some (0.005 : ℚ)⟩]⟩], queryTypeName⟩

/-- Schema of scenario test 4: `field: [String] @scaleLimits(rate: 0.05)`. -/
def schemaListField : SchemaModel :=
  ⟨[⟨queryTypeName, [⟨fieldLabel, .list .scalar, some (0.05 : ℚ)⟩]⟩], queryTypeName⟩

/-- Query `{ field }`. -/
def queryField : List SelectionNode := [.mk fieldLabel []]

/-- Query `{ field field }` (duplicate selection). -/
def queryFieldTwice : List SelectionNode := [.mk fieldLabel [], .mk fieldLabel []]

/-- Query `{ cartLines }`. -/
def queryCartLines : List SelectionNode := [.mk cartLinesLabel []]

/-- Sample with a scalar under the key `field`. -/
def sampleScalarField : ResponseValue := .object [(fieldLabel, .scalar)]

/-- Sample with an n-element list under the key `field`. -/
def sampleFieldList (n : Nat) : ResponseValue :=
  .object [(fieldLabel, .list (List.replicate n .scalar))]

/-- Sample with an n-element list under the key `cartLines`. -/
def sampleCartLines (n : Nat) : ResponseValue :=
  .object [(cartLinesLabel, .list (List.replicate n .scalar))]

theorem rawAnalyze_scalarField_eval :
    rawAnalyze schemaScalarField queryField sampleScalarField = .ok (0.005 : ℚ) := by
  simp [rawAnalyze, analyzeVisits, analyzeVisit, analyzeFieldValue,
    mergeSelections, childrenOf, resolveField, lookupResponseKey, rateOf,
    schemaScalarField, queryField, sampleScalarField, queryTypeName, fieldLabel,
    SelectionNode.name, SelectionNode.children, exAdd]

theorem analyze_scalarField_eval :
    analyze schemaScalarField queryField sampleScalarField = .ok 1 := by
  rw [analyze, rawAnalyze_scalarField_eval]
  norm_num [clampScale, MIN_SCALE, MAX_SCALE]

theorem rawAnalyze_cartLines_eval (n : Nat) :
    rawAnalyze schemaCartLines queryCartLines (sampleCartLines n) =
      .ok ((0.005 : ℚ) * (n : ℚ)) := by
  simp [rawAnalyze, analyzeVisits, analyzeVisit, analyzeFieldValue,
    mergeSelections, childrenOf, resolveField, lookupResponseKey, rateOf,
    schemaCartLines, queryCartLines, sampleCartLines, queryTypeName, cartLinesLabel,
    SelectionNode.name, SelectionNode.children, exAdd]

theorem analyze_cartLines_eval (n : Nat) :
    analyze schemaCartLines queryCartLines (sampleCartLines n) =
      .ok (clampScale ((0.005 : ℚ) * (n : ℚ))) := by
  rw [analyze, rawAnalyze_cartLines_eval]

theorem analyze_listField_single_eval (n : Nat) :
    analyze schemaListField queryField (sampleFieldList n) =
      .ok (clampScale ((0.05 : ℚ) * (n : ℚ))) := by
  rw [analyze]
  have hraw : rawAnalyze schemaListField queryField (sampleFieldList n) =
      .ok ((0.05 : ℚ) * (n : ℚ)) := by
    simp [rawAnalyze, analyzeVisits, analyzeVisit, analyzeFieldValue,
      mergeSelections, childrenOf, resolveField, lookupResponseKey, rateOf,
      schemaListField, queryField, sampleFieldList, queryTypeName, fieldLabel,
      SelectionNode.name, SelectionNode.children, exAdd]
  rw [hraw]

theorem analyze_listField_twice_eval (n : Nat) :
    analyze schemaListField queryFieldTwice (sampleFieldList n) =
      .ok (clampScale ((0.05 : ℚ) * (n : ℚ))) := by
  rw [analyze]
  have hraw : rawAnalyze schemaListField queryFieldTwice (sampleFieldList n) =
      .ok ((0.05 : ℚ) * (n : ℚ)) := by
    simp [rawAnalyze, analyzeVisits, analyzeVisit, analyzeFieldValue,
      mergeSelections, childrenOf, resolveField, lookupResponseKey, rateOf,
      schemaListField, queryFieldTwice, sampleFieldList, queryTypeName, fieldLabel,
      SelectionNode.name, SelectionNode.children, exAdd]
  rw [hraw]

/-! Schema-level rate hypotheses (the spec's invariant: rates are
non-negative; rate 0 / absent rate contributes nothing). -/

def ratesNonneg (s : SchemaModel) : Prop :=
  ∀ td ∈ s.types, ∀ fd ∈ td.fields, 0 ≤ rateOf fd

def ratesZero (s : SchemaModel) : Prop :=
  ∀ td ∈ s.types, ∀ fd ∈ td.fields, rateOf fd = 0

theorem resolveField_mem {s : SchemaModel} {tname fname : String}
    {fd : FieldDefinition} (h : resolveField s tname fname = some fd) :
    ∃ td ∈ s.types, fd ∈ td.fields := by
  unfold resolveField at h
  cases htd : s.types.find? (fun td => td.name = tname) with
  | none => rw [htd] at h; simp at h
  | some td =>
      rw [htd] at h
      simp only [Option.some_bind] at h
      exact ⟨td, List.mem_of_find?_eq_some htd, List.mem_of_find?_eq_some h⟩

theorem rateOf_nonneg_of_resolve {s : SchemaModel} (hs : ratesNonneg s)
    {tname fname : String} {fd : FieldDefinition}
    (h : resolveField s tname fname = some fd) : 0 ≤ rateOf fd := by
  obtain ⟨td, htd, hfd⟩ := resolveField_mem h
  exact hs td htd fd hfd

theorem rateOf_zero_of_resolve {s : SchemaModel} (hs : ratesZero s)
    {tname fname : String} {fd : FieldDefinition}
    (h : resolveField s tname fname = some fd) : rateOf fd = 0 := by
  obtain ⟨td, htd, hfd⟩ := resolveField_mem h
  exact hs td htd fd hfd

/-- Every successful traversal result is non-negative when all rates are
non-negative and the cardinality multiplier is non-negative. -/
theorem analyzer_nonneg (s : SchemaModel) (hs : ratesNonneg s) :
    (∀ tname visits gs mult, 0 ≤ mult → ∀ r,
        analyzeVisits s tname visits gs mult = .ok r → 0 ≤ r) ∧
    (∀ tname sel gs mult, 0 ≤ mult → ∀ r,
        analyzeVisit s tname sel gs mult = .ok r → 0 ≤ r) ∧
    (∀ ftype children fname rate v mult, 0 ≤ rate → 0 ≤ mult → ∀ r,
        analyzeFieldValue s ftype children fname rate v mult = .ok r → 0 ≤ r) ∧
    (∀ itemType children fname es mult, 0 ≤ mult → ∀ r,
        descendElems s itemType children fname es mult = .ok r → 0 ≤ r) ∧
    (∀ itemType children fname v mult, 0 ≤ mult → ∀ r,
        descendValue s itemType children fname v mult = .ok r → 0 ≤ r) := by
  refine analyzeVisits.mutual_induct s
    (fun tname visits gs mult => 0 ≤ mult → ∀ r,
        analyzeVisits s tname visits gs mult = .ok r → 0 ≤ r)
    (fun tname sel gs mult => 0 ≤ mult → ∀ r,
        analyzeVisit s tname sel gs mult = .ok r → 0 ≤ r)
    (fun ftype children fname rate v mult => 0 ≤ rate → 0 ≤ mult → ∀ r,
        analyzeFieldValue s ftype children fname rate v mult = .ok r → 0 ≤ r)
    (fun itemType children fname es mult => 0 ≤ mult → ∀ r,
        descendElems s itemType children fname es mult = .ok r → 0 ≤ r)
    (fun itemType children fname v mult => 0 ≤ mult → ∀ r,
        descendValue s itemType children fname v mult = .ok r → 0 ≤ r)
    ?_ ?_ ?_ ?_ ?_ ?_ ?_ ?_ ?_ ?_ ?_ ?_ ?_ ?_ ?_ ?_ ?_ ?_ ?_ ?_ ?_ ?_ ?_
  · intro tname gs mult _ r h
    simp only [analyzeVisits, Except.ok.injEq] at h
    exact h.le
  · intro tname gs mult t rest ih1 ih2 hm r h
    simp only [analyzeVisits] at h
    rcases (exAdd_ok_iff _ _ _).1 h with ⟨x, y, hx, hy, rfl⟩
    exact add_nonneg (ih1 hm x hx) (ih2 hm y hy)
  · intro tname sel gs mult hres hm r h
    simp only [analyzeVisit, hres] at h
    exact Except.noConfusion h
  · intro tname sel gs mult fd hres hlook hm r h
    simp only [analyzeVisit, hres, hlook, Except.ok.injEq] at h
    exact h.le
  · intro tname sel gs mult fd hres v hlook ih hm r h
    simp only [analyzeVisit, hres, hlook] at h
    exact ih (rateOf_nonneg_of_resolve hs hres) hm r h
  · intro children fname rate mult hr hm r h
    simp only [analyzeFieldValue, Except.ok.injEq] at h
    exact h ▸ mul_nonneg hr hm
  · intro children fname rate mult hr hm r h
    simp only [analyzeFieldValue, Except.ok.injEq] at h
    exact h ▸ mul_nonneg hr hm
  · intro children fname rate v mult hv1 hv2 hr hm r h
    cases v with
    | null => exact absurd rfl hv1
    | scalar => exact absurd rfl hv2
    | list es => rw [analyzeFieldValue.eq_def] at h; simp at h
    | object gs => rw [analyzeFieldValue.eq_def] at h; simp at h
  · intro children fname rate mult tn hr hm r h
    simp only [analyzeFieldValue, Except.ok.injEq] at h
    exact h.le
  · intro children fname rate mult tn gs ih hr hm r h
    simp only [analyzeFieldValue] at h
    rcases (exAdd_ok_iff _ _ _).1 h with ⟨x, y, hx, hy, rfl⟩
    simp only [Except.ok.injEq] at hx
    exact add_nonneg (hx ▸ mul_nonneg hr hm) (ih hm y hy)
  · intro children fname rate v mult tn hv1 hv2 hr hm r h
    cases v with
    | null => exact absurd rfl hv1
    | object gs => exact absurd rfl (hv2 gs)
    | scalar => rw [analyzeFieldValue.eq_def] at h; simp at h
    | list es => rw [analyzeFieldValue.eq_def] at h; simp at h
  · intro children fname rate mult it hr hm r h
    simp only [analyzeFieldValue, Except.ok.injEq] at h
    exact h.le
  · intro children fname rate mult it es ih hr hm r h
    simp only [analyzeFieldValue] at h
    rcases (exAdd_ok_iff _ _ _).1 h with ⟨x, y, hx, hy, rfl⟩
    simp only [Except.ok.injEq] at hx
    have hx0 : 0 ≤ x := hx ▸ mul_nonneg (mul_nonneg hr hm) (Nat.cast_nonneg _)
    have hy0 : 0 ≤ y := by
      by_cases hc : children.isEmpty
      · simp [hc] at hy
        exact hy.le
      · simp [hc] at hy
        exact ih (mul_nonneg hm (Nat.cast_nonneg _)) y hy
    exact add_nonneg hx0 hy0
  · intro children fname rate v mult item hv1 hv2 hr hm r h
    cases v with
    | null => exact absurd rfl hv1
    | list es => exact absurd rfl (hv2 es)
    | scalar => rw [analyzeFieldValue.eq_def] at h; simp at h
    | object gs => rw [analyzeFieldValue.eq_def] at h; simp at h
  · intro it children fname mult hm r h
    simp only [descendElems, Except.ok.injEq] at h
    exact h.le
  · intro it children fname mult e es ih1 ih2 hm r h
    simp only [descendElems] at h
    rcases (exAdd_ok_iff _ _ _).1 h with ⟨x, y, hx, hy, rfl⟩
    exact add_nonneg (ih1 hm x hx) (ih2 hm y hy)
  · intro children fname v mult hm r h
    simp only [descendValue, Except.ok.injEq] at h
    exact h.le
  · intro children fname mult tn hm r h
    simp only [descendValue, Except.ok.injEq] at h
    exact h.le
  · intro children fname mult tn gs ih hm r h
    simp only [descendValue] at h
    exact ih hm r h
  · intro children fname v mult tn hv1 hv2 hm r h
    cases v with
    | null => exact absurd rfl hv1
    | object gs => exact absurd rfl (hv2 gs)
    | scalar => rw [descendValue.eq_def] at h; simp at h
    | list es => rw [descendValue.eq_def] at h; simp at h
  · intro children fname mult it hm r h
    simp only [descendValue, Except.ok.injEq] at h
    exact h.le
  · intro children fname mult it es ih hm r h
    simp only [descendValue] at h
    exact ih (mul_nonneg hm (Nat.cast_nonneg _)) r h
  · intro children fname v mult item hv1 hv2 hm r h
    cases v with
    | null => exact absurd rfl hv1
    | list es => exact absurd rfl (hv2 es)
    | scalar => rw [descendValue.eq_def] at h; simp at h
    | object gs => rw [descendValue.eq_def] at h; simp at h

/-- Monotonicity in the cardinality multiplier: with non-negative rates,
raising the multiplier never decreases a successful traversal result. -/
theorem analyzer_mult_mono (s : SchemaModel) (hs : ratesNonneg s) :
    (∀ tname visits gs mult, ∀ mult' r r', 0 ≤ mult → mult ≤ mult' →
        analyzeVisits s tname visits gs mult = .ok r →
        analyzeVisits s tname visits gs mult' = .ok r' → r ≤ r') ∧
    (∀ tname sel gs mult, ∀ mult' r r', 0 ≤ mult → mult ≤ mult' →
        analyzeVisit s tname sel gs mult = .ok r →
        analyzeVisit s tname sel gs mult' = .ok r' → r ≤ r') ∧
    (∀ ftype children fname rate v mult, ∀ mult' r r', 0 ≤ rate → 0 ≤ mult → mult ≤ mult' →
        analyzeFieldValue s ftype children fname rate v mult = .ok r →
        analyzeFieldValue s ftype children fname rate v mult' = .ok r' → r ≤ r') ∧
    (∀ itemType children fname es mult, ∀ mult' r r', 0 ≤ mult → mult ≤ mult' →
        descendElems s itemType children fname es mult = .ok r →
        descendElems s itemType children fname es mult' = .ok r' → r ≤ r') ∧
    (∀ itemType children fname v mult, ∀ mult' r r', 0 ≤ mult → mult ≤ mult' →
        descendValue s itemType children fname v mult = .ok r →
        descendValue s itemType children fname v mult' = .ok r' → r ≤ r') := by
  refine analyzeVisits.mutual_induct s
    (fun tname visits gs mult => ∀ mult' r r', 0 ≤ mult → mult ≤ mult' →
        analyzeVisits s tname visits gs mult = .ok r →
        analyzeVisits s tname visits gs mult' = .ok r' → r ≤ r')
    (fun tname sel gs mult => ∀ mult' r r', 0 ≤ mult → mult ≤ mult' →
        analyzeVisit s tname sel gs mult = .ok r →
        analyzeVisit s tname sel gs mult' = .ok r' → r ≤ r')
    (fun ftype children fname rate v mult => ∀ mult' r r', 0 ≤ rate → 0 ≤ mult → mult ≤ mult' →
        analyzeFieldValue s ftype children fname rate v mult = .ok r →
        analyzeFieldValue s ftype children fname rate v mult' = .ok r' → r ≤ r')
    (fun itemType children fname es mult => ∀ mult' r r', 0 ≤ mult → mult ≤ mult' →
        descendElems s itemType children fname es mult = .ok r →
        descendElems s itemType children fname es mult' = .ok r' → r ≤ r')
    (fun itemType children fname v mult => ∀ mult' r r', 0 ≤ mult → mult ≤ mult' →
        descendValue s itemType children fname v mult = .ok r →
        descendValue s itemType children fname v mult' = .ok r' → r ≤ r')
    ?_ ?_ ?_ ?_ ?_ ?_ ?_ ?_ ?_ ?_ ?_ ?_ ?_ ?_ ?_ ?_ ?_ ?_ ?_ ?_ ?_ ?_ ?_
  · intro tname gs mult mult' r r' _ _ h1 h2
    simp only [analyzeVisits, Except.ok.injEq] at h1 h2
    exact le_of_eq (h1.symm.trans h2)
  · intro tname gs mult t rest ih1 ih2 mult' r r' hm hmm h1 h2
    simp only [analyzeVisits] at h1 h2
    rcases (exAdd_ok_iff _ _ _).1 h1 with ⟨x, y, hx, hy, rfl⟩
    rcases (exAdd_ok_iff _ _ _).1 h2 with ⟨x', y', hx', hy', rfl⟩
    exact add_le_add (ih1 mult' x x' hm hmm hx hx') (ih2 mult' y y' hm hmm hy hy')
  · intro tname sel gs mult hres mult' r r' _ _ h1 h2
    simp only [analyzeVisit, hres] at h1
    exact Except.noConfusion h1
  · intro tname sel gs mult fd hres hlook mult' r r' _ _ h1 h2
    simp only [analyzeVisit, hres, hlook, Except.ok.injEq] at h1 h2
    exact le_of_eq (h1.symm.trans h2)
  · intro tname sel gs mult fd hres v hlook ih mult' r r' hm hmm h1 h2
    simp only [analyzeVisit, hres, hlook] at h1 h2
    exact ih mult' r r' (rateOf_nonneg_of_resolve hs hres) hm hmm h1 h2
  · intro children fname rate mult mult' r r' hr hm hmm h1 h2
    simp only [analyzeFieldValue, Except.ok.injEq] at h1 h2
    rw [← h1, ← h2]
    exact mul_le_mul_of_nonneg_left hmm hr
  · intro children fname rate mult mult' r r' hr hm hmm h1 h2
    simp only [analyzeFieldValue, Except.ok.injEq] at h1 h2
    rw [← h1, ← h2]
    exact mul_le_mul_of_nonneg_left hmm hr
  · intro children fname rate v mult hv1 hv2 mult' r r' hr hm hmm h1 h2
    cases v with
    | null => exact absurd rfl hv1
    | scalar => exact absurd rfl hv2
    | list es => rw [analyzeFieldValue.eq_def] at h1; simp at h1
    | object gs => rw [analyzeFieldValue.eq_def] at h1; simp at h1
  · intro children fname rate mult tn mult' r r' _ _ _ h1 h2
    simp only [analyzeFieldValue, Except.ok.injEq] at h1 h2
    exact le_of_eq (h1.symm.trans h2)
  · intro children fname rate mult tn gs ih mult' r r' hr hm hmm h1 h2
    simp only [analyzeFieldValue] at h1 h2
    rcases (exAdd_ok_iff _ _ _).1 h1 with ⟨x, y, hx, hy, rfl⟩
    rcases (exAdd_ok_iff _ _ _).1 h2 with ⟨x', y', hx', hy', rfl⟩
    simp only [Except.ok.injEq] at hx hx'
    rw [← hx, ← hx']
    exact add_le_add (mul_le_mul_of_nonneg_left hmm hr) (ih mult' y y' hm hmm hy hy')
  · intro children fname rate v mult tn hv1 hv2 mult' r r' hr hm hmm h1 h2
    cases v with
    | null => exact absurd rfl hv1
    | object gs => exact absurd rfl (hv2 gs)
    | scalar => rw [analyzeFieldValue.eq_def] at h1; simp at h1
    | list es => rw [analyzeFieldValue.eq_def] at h1; simp at h1
  · intro children fname rate mult it mult' r r' _ _ _ h1 h2
    simp only [analyzeFieldValue, Except.ok.injEq] at h1 h2
    exact le_of_eq (h1.symm.trans h2)
  · intro children fname rate mult it es ih mult' r r' hr hm hmm h1 h2
    simp only [analyzeFieldValue] at h1 h2
    rcases (exAdd_ok_iff _ _ _).1 h1 with ⟨x, y, hx, hy, rfl⟩
    rcases (exAdd_ok_iff _ _ _).1 h2 with ⟨x', y', hx', hy', rfl⟩
    simp only [Except.ok.injEq] at hx hx'
    have hlen : (0 : ℚ) ≤ (es.length : ℚ) := Nat.cast_nonneg _
    have hown : x ≤ x' := by
      rw [← hx, ← hx']
      exact mul_le_mul_of_nonneg_right (mul_le_mul_of_nonneg_left hmm hr) hlen
    have hnest : y ≤ y' := by
      by_cases hc : children.isEmpty
      · simp [hc] at hy hy'
        exact le_of_eq (hy.symm.trans hy')
      · simp [hc] at hy hy'
        exact ih (mult' * (es.length : ℚ)) y y' (mul_nonneg hm hlen)
          (mul_le_mul_of_nonneg_right hmm hlen) hy hy'
    exact add_le_add hown hnest
  · intro children fname rate v mult item hv1 hv2 mult' r r' hr hm hmm h1 h2
    cases v with
    | null => exact absurd rfl hv1
    | list es => exact absurd rfl (hv2 es)
    | scalar => rw [analyzeFieldValue.eq_def] at h1; simp at h1
    | object gs => rw [analyzeFieldValue.eq_def] at h1; simp at h1
  · intro it children fname mult mult' r r' _ _ h1 h2
    simp only [descendElems, Except.ok.injEq] at h1 h2
    exact le_of_eq (h1.symm.trans h2)
  · intro it children fname mult e es ih1 ih2 mult' r r' hm hmm h1 h2
    simp only [descendElems] at h1 h2
    rcases (exAdd_ok_iff _ _ _).1 h1 with ⟨x, y, hx, hy, rfl⟩
    rcases (exAdd_ok_iff _ _ _).1 h2 with ⟨x', y', hx', hy', rfl⟩
    exact add_le_add (ih1 mult' x x' hm hmm hx hx') (ih2 mult' y y' hm hmm hy hy')
  · intro children fname v mult mult' r r' _ _ h1 h2
    simp only [descendValue, Except.ok.injEq] at h1 h2
    exact le_of_eq (h1.symm.trans h2)
  · intro children fname mult tn mult' r r' _ _ h1 h2
    simp only [descendValue, Except.ok.injEq] at h1 h2
    exact le_of_eq (h1.symm.trans h2)
  · intro children fname mult tn gs ih mult' r r' hm hmm h1 h2
    simp only [descendValue] at h1 h2
    exact ih mult' r r' hm hmm h1 h2
  · intro children fname v mult tn hv1 hv2 mult' r r' hm hmm h1 h2
    cases v with
    | null => exact absurd rfl hv1
    | object gs => exact absurd rfl (hv2 gs)
    | scalar => rw [descendValue.eq_def] at h1; simp at h1
    | list es => rw [descendValue.eq_def] at h1; simp at h1
  · intro children fname mult it mult' r r' _ _ h1 h2
    simp only [descendValue, Except.ok.injEq] at h1 h2
    exact le_of_eq (h1.symm.trans h2)
  · intro children fname mult it es ih mult' r r' hm hmm h1 h2
    simp only [descendValue] at h1 h2
    have hlen : (0 : ℚ) ≤ (es.length : ℚ) := Nat.cast_nonneg _
    exact ih (mult' * (es.length : ℚ)) r r' (mul_nonneg hm hlen)
      (mul_le_mul_of_nonneg_right hmm hlen) h1 h2
  · intro children fname v mult item hv1 hv2 mult' r r' hm hmm h1 h2
    cases v with
    | null => exact absurd rfl hv1
    | list es => exact absurd rfl (hv2 es)
    | scalar => rw [descendValue.eq_def] at h1; simp at h1
    | object gs => rw [descendValue.eq_def] at h1; simp at h1

/-- With every rate equal to 0 (or absent), every successful traversal
result is exactly 0. -/
theorem analyzer_zero_rates (s : SchemaModel) (hs : ratesZero s) :
    (∀ tname visits gs mult, ∀ r,
        analyzeVisits s tname visits gs mult = .ok r → r = 0) ∧
    (∀ tname sel gs mult, ∀ r,
        analyzeVisit s tname sel gs mult = .ok r → r = 0) ∧
    (∀ ftype children fname rate v mult, rate = 0 → ∀ r,
        analyzeFieldValue s ftype children fname rate v mult = .ok r → r = 0) ∧
    (∀ itemType children fname es mult, ∀ r,
        descendElems s itemType children fname es mult = .ok r → r = 0) ∧
    (∀ itemType children fname v mult, ∀ r,
        descendValue s itemType children fname v mult = .ok r → r = 0) := by
  refine analyzeVisits.mutual_induct s
    (fun tname visits gs mult => ∀ r,
        analyzeVisits s tname visits gs mult = .ok r → r = 0)
    (fun tname sel gs mult => ∀ r,
        analyzeVisit s tname sel gs mult = .ok r → r = 0)
    (fun ftype children fname rate v mult => rate = 0 → ∀ r,
        analyzeFieldValue s ftype children fname rate v mult = .ok r → r = 0)
    (fun itemType children fname es mult => ∀ r,
        descendElems s itemType children fname es mult = .ok r → r = 0)
    (fun itemType children fname v mult => ∀ r,
        descendValue s itemType children fname v mult = .ok r → r = 0)
    ?_ ?_ ?_ ?_ ?_ ?_ ?_ ?_ ?_ ?_ ?_ ?_ ?_ ?_ ?_ ?_ ?_ ?_ ?_ ?_ ?_ ?_ ?_
  · intro tname gs mult r h
    simp only [analyzeVisits, Except.ok.injEq] at h
    exact h.symm
  · intro tname gs mult t rest ih1 ih2 r h
    simp only [analyzeVisits] at h
    rcases (exAdd_ok_iff _ _ _).1 h with ⟨x, y, hx, hy, rfl⟩
    rw [ih1 x hx, ih2 y hy, add_zero]
  · intro tname sel gs mult hres r h
    simp only [analyzeVisit, hres] at h
    exact Except.noConfusion h
  · intro tname sel gs mult fd hres hlook r h
    simp only [analyzeVisit, hres, hlook, Except.ok.injEq] at h
    exact h.symm
  · intro tname sel gs mult fd hres v hlook ih r h
    simp only [analyzeVisit, hres, hlook] at h
    exact ih (rateOf_zero_of_resolve hs hres) r h
  · intro children fname rate mult hr r h
    simp only [analyzeFieldValue, Except.ok.injEq] at h
    rw [← h, hr, zero_mul]
  · intro children fname rate mult hr r h
    simp only [analyzeFieldValue, Except.ok.injEq] at h
    rw [← h, hr, zero_mul]
  · intro children fname rate v mult hv1 hv2 hr r h
    cases v with
    | null => exact absurd rfl hv1
    | scalar => exact absurd rfl hv2
    | list es => rw [analyzeFieldValue.eq_def] at h; simp at h
    | object gs => rw [analyzeFieldValue.eq_def] at h; simp at h
  · intro children fname rate mult tn hr r h
    simp only [analyzeFieldValue, Except.ok.injEq] at h
    exact h.symm
  · intro children fname rate mult tn gs ih hr r h
    simp only [analyzeFieldValue] at h
    rcases (exAdd_ok_iff _ _ _).1 h with ⟨x, y, hx, hy, rfl⟩
    simp only [Except.ok.injEq] at hx
    rw [← hx, hr, zero_mul, ih y hy, add_zero]
  · intro children fname rate v mult tn hv1 hv2 hr r h
    cases v with
    | null => exact absurd rfl hv1
    | object gs => exact absurd rfl (hv2 gs)
    | scalar => rw [analyzeFieldValue.eq_def] at h; simp at h
    | list es => rw [analyzeFieldValue.eq_def] at h; simp at h
  · intro children fname rate mult it hr r h
    simp only [analyzeFieldValue, Except.ok.injEq] at h
    exact h.symm
  · intro children fname rate mult it es ih hr r h
    simp only [analyzeFieldValue] at h
    rcases (exAdd_ok_iff _ _ _).1 h with ⟨x, y, hx, hy, rfl⟩
    simp only [Except.ok.injEq] at hx
    have hy0 : y = 0 := by
      by_cases hc : children.isEmpty
      · simp [hc] at hy
        exact hy.symm
      · simp [hc] at hy
        exact ih y hy
    rw [← hx, hr, zero_mul, zero_mul, hy0, add_zero]
  · intro children fname rate v mult item hv1 hv2 hr r h
    cases v with
    | null => exact absurd rfl hv1
    | list es => exact absurd rfl (hv2 es)
    | scalar => rw [analyzeFieldValue.eq_def] at h; simp at h
    | object gs => rw [analyzeFieldValue.eq_def] at h; simp at h
  · intro it children fname mult r h
    simp only [descendElems, Except.ok.injEq] at h
    exact h.symm
  · intro it children fname mult e es ih1 ih2 r h
    simp only [descendElems] at h
    rcases (exAdd_ok_iff _ _ _).1 h with ⟨x, y, hx, hy, rfl⟩
    rw [ih1 x hx, ih2 y hy, add_zero]
  · intro children fname v mult r h
    simp only [descendValue, Except.ok.injEq] at h
    exact h.symm
  · intro children fname mult tn r h
    simp only [descendValue, Except.ok.injEq] at h
    exact h.symm
  · intro children fname mult tn gs ih r h
    simp only [descendValue] at h
    exact ih r h
  · intro children fname v mult tn hv1 hv2 r h
    cases v with
    | null => exact absurd rfl hv1
    | object gs => exact absurd rfl (hv2 gs)
    | scalar => rw [descendValue.eq_def] at h; simp at h
    | list es => rw [descendValue.eq_def] at h; simp at h
  · intro children fname mult it r h
    simp only [descendValue, Except.ok.injEq] at h
    exact h.symm
  · intro children fname mult it es ih r h
    simp only [descendValue] at h
    exact ih r h
  · intro children fname v mult item hv1 hv2 r h
    cases v with
    | null => exact absurd rfl hv1
    | list es => exact absurd rfl (hv2 es)
    | scalar => rw [descendValue.eq_def] at h; simp at h
    | object gs => rw [descendValue.eq_def] at h; simp at h

/-! Duplicate-selection merging (claim C2): merging collapses repeated
selections of one field into a single visit whose children are the
concatenation of all the occurrences' children.  When the repeated
selections are identical, those children are `c ++ repConcat k c`, and the
traversal gives them the same meaning as `c` alone. -/

def repConcat (k : Nat) (l : List SelectionNode) : List SelectionNode :=
  match k with
  | 0 => []
  | k + 1 => l ++ repConcat k l

/-- A selection with its own children list duplicated k more times. -/
def repSel (k : Nat) (t : SelectionNode) : SelectionNode :=
  .mk t.name (t.children ++ repConcat k t.children)

theorem repConcat_nil (k : Nat) : repConcat k ([] : List SelectionNode) = [] := by
  induction k with
  | zero => rfl
  | succ k ih => simp [repConcat, ih]

theorem repSel_name (k : Nat) (t : SelectionNode) : (repSel k t).name = t.name := by
  simp [repSel, SelectionNode.name]

theorem repSel_children (k : Nat) (t : SelectionNode) :
    (repSel k t).children = t.children ++ repConcat k t.children := by
  simp [repSel, SelectionNode.children]

theorem childrenOf_append (n : String) (a b : List SelectionNode) :
    childrenOf n (a ++ b) = childrenOf n a ++ childrenOf n b := by
  induction a with
  | nil => simp [childrenOf]
  | cons t ts ih =>
      by_cases h : t.name = n
      · simp [childrenOf, h, ih]
      · simp [childrenOf, h, ih]

theorem childrenOf_repConcat (n : String) (k : Nat) (l : List SelectionNode) :
    childrenOf n (repConcat k l) = repConcat k (childrenOf n l) := by
  induction k with
  | zero => simp [repConcat, childrenOf]
  | succ k ih => simp [repConcat, childrenOf_append, ih]

theorem filter_repConcat (p : SelectionNode → Bool) (k : Nat) (l : List SelectionNode) :
    (repConcat k l).filter p = repConcat k (l.filter p) := by
  induction k with
  | zero => simp [repConcat]
  | succ k ih => simp [repConcat, List.filter_append, ih]

theorem isEmpty_append_repConcat (k : Nat) (l : List SelectionNode) :
    (l ++ repConcat k l).isEmpty = l.isEmpty := by
  cases l with
  | nil => simp [repConcat_nil]
  | cons t ts => simp

/-- Merging a selection list followed by k duplicated copies of itself
yields the merge of the original list with every visit's children
duplicated k more times. -/
theorem merge_append_repConcat (k : Nat) (l : List SelectionNode) :
    mergeSelections (l ++ repConcat k l) = (mergeSelections l).map (repSel k) := by
  induction l using mergeSelections.induct with
  | case1 => simp [repConcat_nil, mergeSelections]
  | case2 t rest ih =>
      have hhead : childrenOf t.name ((rest ++ repConcat k (t :: rest))) =
          childrenOf t.name rest ++
            repConcat k (t.children ++ childrenOf t.name rest) := by
        rw [childrenOf_append, childrenOf_repConcat]
        have : childrenOf t.name (t :: rest) = t.children ++ childrenOf t.name rest := by
          simp [childrenOf]
        rw [this]
      have htail : (rest ++ repConcat k (t :: rest)).filter (fun u => u.name ≠ t.name) =
          rest.filter (fun u => u.name ≠ t.name) ++
            repConcat k (rest.filter (fun u => u.name ≠ t.name)) := by
        rw [List.filter_append, filter_repConcat]
        have : (t :: rest).filter (fun u => u.name ≠ t.name) =
            rest.filter (fun u => u.name ≠ t.name) := by
          simp [List.filter_cons]
        rw [this]
      calc mergeSelections ((t :: rest) ++ repConcat k (t :: rest))
          = mergeSelections (t :: (rest ++ repConcat k (t :: rest))) := by
            simp
        _ = SelectionNode.mk t.name
              (t.children ++ childrenOf t.name (rest ++ repConcat k (t :: rest))) ::
              mergeSelections
                ((rest ++ repConcat k (t :: rest)).filter (fun u => u.name ≠ t.name)) := by
            simp [mergeSelections]
        _ = repSel k (SelectionNode.mk t.name (t.children ++ childrenOf t.name rest)) ::
              (mergeSelections (rest.filter (fun u => u.name ≠ t.name))).map (repSel k) := by
            rw [hhead, htail, ih]
            simp [repSel, SelectionNode.name, SelectionNode.children, List.append_assoc]
        _ = (mergeSelections (t :: rest)).map (repSel k) := by
            simp [mergeSelections]

/-- Duplicating every child selection of a visit (or of every visit of a
selection set) does not change any traversal result: the spec's merge makes
repeated identical selections a no-op. -/
theorem analyzer_repSel (s : SchemaModel) :
    (∀ tname visits gs mult, ∀ k,
        analyzeVisits s tname (visits.map (repSel k)) gs mult =
          analyzeVisits s tname visits gs mult) ∧
    (∀ tname sel gs mult, ∀ k,
        analyzeVisit s tname (repSel k sel) gs mult =
          analyzeVisit s tname sel gs mult) ∧
    (∀ ftype children fname rate v mult, ∀ k,
        analyzeFieldValue s ftype (children ++ repConcat k children) fname rate v mult =
          analyzeFieldValue s ftype children fname rate v mult) ∧
    (∀ itemType children fname es mult, ∀ k,
        descendElems s itemType (children ++ repConcat k children) fname es mult =
          descendElems s itemType children fname es mult) ∧
    (∀ itemType children fname v mult, ∀ k,
        descendValue s itemType (children ++ repConcat k children) fname v mult =
          descendValue s itemType children fname v mult) := by
  refine analyzeVisits.mutual_induct s
    (fun tname visits gs mult => ∀ k,
        analyzeVisits s tname (visits.map (repSel k)) gs mult =
          analyzeVisits s tname visits gs mult)
    (fun tname sel gs mult => ∀ k,
        analyzeVisit s tname (repSel k sel) gs mult =
          analyzeVisit s tname sel gs mult)
    (fun ftype children fname rate v mult => ∀ k,
        analyzeFieldValue s ftype (children ++ repConcat k children) fname rate v mult =
          analyzeFieldValue s ftype children fname rate v mult)
    (fun itemType children fname es mult => ∀ k,
        descendElems s itemType (children ++ repConcat k children) fname es mult =
          descendElems s itemType children fname es mult)
    (fun itemType children fname v mult => ∀ k,
        descendValue s itemType (children ++ repConcat k children) fname v mult =
          descendValue s itemType children fname v mult)
    ?_ ?_ ?_ ?_ ?_ ?_ ?_ ?_ ?_ ?_ ?_ ?_ ?_ ?_ ?_ ?_ ?_ ?_ ?_ ?_ ?_ ?_ ?_
  · intro tname gs mult k
    simp [analyzeVisits]
  · intro tname gs mult t rest ih1 ih2 k
    rw [List.map_cons]
    simp only [analyzeVisits]
    rw [ih1 k, ih2 k]
  · intro tname sel gs mult hres k
    simp only [analyzeVisit, repSel_name, hres]
  · intro tname sel gs mult fd hres hlook k
    simp only [analyzeVisit, repSel_name, hres, hlook]
  · intro tname sel gs mult fd hres v hlook ih k
    simp only [analyzeVisit, repSel_name, repSel_children, hres, hlook]
    exact ih k
  · intro children fname rate mult k
    simp only [analyzeFieldValue]
  · intro children fname rate mult k
    simp only [analyzeFieldValue]
  · intro children fname rate v mult hv1 hv2 k
    cases v with
    | null => exact absurd rfl hv1
    | scalar => exact absurd rfl hv2
    | list es => simp [analyzeFieldValue.eq_def]
    | object gs => simp [analyzeFieldValue.eq_def]
  · intro children fname rate mult tn k
    simp only [analyzeFieldValue]
  · intro children fname rate mult tn gs ih k
    simp only [analyzeFieldValue]
    rw [merge_append_repConcat, ih k]
  · intro children fname rate v mult tn hv1 hv2 k
    cases v with
    | null => exact absurd rfl hv1
    | object gs => exact absurd rfl (hv2 gs)
    | scalar => simp [analyzeFieldValue.eq_def]
    | list es => simp [analyzeFieldValue.eq_def]
  · intro children fname rate mult it k
    simp only [analyzeFieldValue]
  · intro children fname rate mult it es ih k
    simp only [analyzeFieldValue, isEmpty_append_repConcat]
    by_cases hc : children.isEmpty
    · simp [hc]
    · simp only [hc, Bool.false_eq_true, if_false, if_neg]
      rw [ih k]
  · intro children fname rate v mult item hv1 hv2 k
    cases v with
    | null => exact absurd rfl hv1
    | list es => exact absurd rfl (hv2 es)
    | scalar => simp [analyzeFieldValue.eq_def]
    | object gs => simp [analyzeFieldValue.eq_def]
  · intro it children fname mult k
    simp only [descendElems]
  · intro it children fname mult e es ih1 ih2 k
    simp only [descendElems]
    rw [ih1 k, ih2 k]
  · intro children fname v mult k
    simp only [descendValue]
  · intro children fname mult tn k
    simp only [descendValue]
  · intro children fname mult tn gs ih k
    simp only [descendValue]
    rw [merge_append_repConcat, ih k]
  · intro children fname v mult tn hv1 hv2 k
    cases v with
    | null => exact absurd rfl hv1
    | object gs => exact absurd rfl (hv2 gs)
    | scalar => simp [descendValue.eq_def]
    | list es => simp [descendValue.eq_def]
  · intro children fname mult it k
    simp only [descendValue]
  · intro children fname mult it es ih k
    simp only [descendValue]
    rw [ih k]
  · intro children fname v mult item hv1 hv2 k
    cases v with
    | null => exact absurd rfl hv1
    | list es => exact absurd rfl (hv2 es)
    | scalar => simp [descendValue.eq_def]
    | object gs => simp [descendValue.eq_def]

theorem SelectionNode.eta (t : SelectionNode) :
    SelectionNode.mk t.name t.children = t := by
  cases t
  rfl

theorem filter_swap (p q : SelectionNode → Bool) (l : List SelectionNode) :
    (l.filter p).filter q = (l.filter q).filter p := by
  induction l with
  | nil => rfl
  | cons t ts ih =>
      by_cases hp : p t <;> by_cases hq : q t <;>
        simp [List.filter_cons, hp, hq, ih]

theorem filter_name_idem (n : String) (l : List SelectionNode) :
    (l.filter (fun t => t.name ≠ n)).filter (fun t => t.name ≠ n) =
      l.filter (fun t => t.name ≠ n) := by
  induction l with
  | nil => rfl
  | cons t ts ih =>
      by_cases ht : t.name = n <;> simp [List.filter_cons, ht, ih]

theorem childrenOf_filter_self (n : String) (l : List SelectionNode) :
    childrenOf n (l.filter (fun t => t.name ≠ n)) = [] := by
  induction l with
  | nil => rfl
  | cons t ts ih =>
      simp only [ne_eq, decide_not] at ih ⊢
      by_cases ht : t.name = n
      · simp [List.filter_cons, ht, ih]
      · simp [List.filter_cons, ht, childrenOf, ih]

theorem childrenOf_filter_ne (m n : String) (h : ¬ m = n) (l : List SelectionNode) :
    childrenOf m (l.filter (fun t => t.name ≠ n)) = childrenOf m l := by
  have hnm : ¬ n = m := fun hh => h hh.symm
  induction l with
  | nil => rfl
  | cons t ts ih =>
      simp only [ne_eq, decide_not] at ih ⊢
      by_cases ht : t.name = n
      · have htm : ¬ (t.name = m) := by
          rw [ht]
          exact hnm
        simp [List.filter_cons, ht, childrenOf, htm, hnm, h, ih]
      · by_cases htm : t.name = m
        · simp [List.filter_cons, ht, childrenOf, htm, hnm, h, ih]
        · simp [List.filter_cons, ht, childrenOf, htm, hnm, h, ih]

theorem childrenOf_all_eq {l : List SelectionNode} {s₀ : SelectionNode}
    (h : ∀ t ∈ l, t.name = s₀.name → t = s₀) :
    ∃ k, childrenOf s₀.name l = repConcat k s₀.children := by
  induction l with
  | nil => exact ⟨0, rfl⟩
  | cons t ts ih =>
      obtain ⟨k, hk⟩ := ih (fun u hu hn => h u (List.mem_cons_of_mem _ hu) hn)
      by_cases ht : t.name = s₀.name
      · have hts : t = s₀ := h t (List.mem_cons_self _ _) ht
        refine ⟨k + 1, ?_⟩
        subst hts
        simp [childrenOf, ht, hk, repConcat]
      · exact ⟨k, by simp [childrenOf, ht, hk]⟩

/-- Base case of claim C2's deduplication: duplicated occurrences of a
selection directly at the head of the selection set merge into one visit
with duplicated children, which the traversal treats exactly like the
single visit. -/
theorem dedup_nil (s : SchemaModel) (l₂ : List SelectionNode) (s₀ : SelectionNode)
    (h2 : ∀ t ∈ l₂, t.name = s₀.name → t = s₀) (tname : String)
    (gs : List (String × ResponseValue)) (mult : ℚ) :
    analyzeVisits s tname (mergeSelections (s₀ :: l₂)) gs mult =
      analyzeVisits s tname
        (mergeSelections (s₀ :: l₂.filter (fun t => t.name ≠ s₀.name))) gs mult := by
  obtain ⟨k, hk⟩ := childrenOf_all_eq h2
  have hL : mergeSelections (s₀ :: l₂) =
      SelectionNode.mk s₀.name (s₀.children ++ repConcat k s₀.children) ::
        mergeSelections (l₂.filter (fun u => u.name ≠ s₀.name)) := by
    simp only [mergeSelections]
    rw [hk]
  have hR : mergeSelections (s₀ :: l₂.filter (fun t => t.name ≠ s₀.name)) =
      SelectionNode.mk s₀.name s₀.children ::
        mergeSelections (l₂.filter (fun u => u.name ≠ s₀.name)) := by
    simp only [mergeSelections]
    rw [childrenOf_filter_self, List.append_nil, filter_name_idem]
  rw [hL, hR]
  simp only [analyzeVisits]
  have hv : analyzeVisit s tname
      (SelectionNode.mk s₀.name (s₀.children ++ repConcat k s₀.children)) gs mult =
      analyzeVisit s tname (SelectionNode.mk s₀.name s₀.children) gs mult := by
    have h := (analyzer_repSel s).2.1 tname (SelectionNode.mk s₀.name s₀.children) gs mult k
    simpa [repSel, SelectionNode.name, SelectionNode.children] using h
  rw [hv]

/-- Claim C2's deduplication at the level of one selection set: removing
the later duplicates of a selection (identical name and children) does not
change the traversal result. -/
theorem dedup_core (s : SchemaModel) :
    ∀ (N : Nat) (l₁ l₂ : List SelectionNode) (s₀ : SelectionNode), l₁.length ≤ N →
      (∀ t ∈ l₁, t.name ≠ s₀.name) →
      (∀ t ∈ l₂, t.name = s₀.name → t = s₀) →
      ∀ tname gs mult,
        analyzeVisits s tname (mergeSelections (l₁ ++ s₀ :: l₂)) gs mult =
          analyzeVisits s tname
            (mergeSelections (l₁ ++ s₀ :: l₂.filter (fun t => t.name ≠ s₀.name)))
            gs mult := by
  intro N
  induction N with
  | zero =>
      intro l₁ l₂ s₀ hlen h1 h2 tname gs mult
      have hnil : l₁ = [] := List.length_eq_zero.1 (Nat.le_zero.1 hlen)
      subst hnil
      simpa using dedup_nil s l₂ s₀ h2 tname gs mult
  | succ N ihN =>
      intro l₁ l₂ s₀ hlen h1 h2 tname gs mult
      cases l₁ with
      | nil => simpa using dedup_nil s l₂ s₀ h2 tname gs mult
      | cons t l₁' =>
          have hm : ¬ t.name = s₀.name := h1 t (List.mem_cons_self _ _)
          have hs : ¬ s₀.name = t.name := fun hh => hm hh.symm
          have e1 : (t :: l₁') ++ s₀ :: l₂ = t :: (l₁' ++ s₀ :: l₂) := by simp
          have e2 : (t :: l₁') ++ s₀ :: l₂.filter (fun u => u.name ≠ s₀.name) =
              t :: (l₁' ++ s₀ :: l₂.filter (fun u => u.name ≠ s₀.name)) := by simp
          rw [e1, e2]
          simp only [mergeSelections]
          have hcons : ∀ X : List SelectionNode,
              childrenOf t.name (s₀ :: X) = childrenOf t.name X := by
            intro X
            simp only [childrenOf]
            rw [if_neg hs]
          have hhead : childrenOf t.name
              (l₁' ++ s₀ :: l₂.filter (fun u => u.name ≠ s₀.name)) =
              childrenOf t.name (l₁' ++ s₀ :: l₂) := by
            rw [childrenOf_append, childrenOf_append, hcons, hcons,
              childrenOf_filter_ne t.name s₀.name hm l₂]
          rw [hhead]
          have hfcons : ∀ X : List SelectionNode,
              (s₀ :: X).filter (fun u => u.name ≠ t.name) =
                s₀ :: X.filter (fun u => u.name ≠ t.name) := by
            intro X
            rw [List.filter_cons]
            simp [hs]
          have htail1 : (l₁' ++ s₀ :: l₂).filter (fun u => u.name ≠ t.name) =
              l₁'.filter (fun u => u.name ≠ t.name) ++ s₀ ::
                l₂.filter (fun u => u.name ≠ t.name) := by
            rw [List.filter_append, hfcons]
          have htail2 : (l₁' ++ s₀ :: l₂.filter (fun u => u.name ≠ s₀.name)).filter
                (fun u => u.name ≠ t.name) =
              l₁'.filter (fun u => u.name ≠ t.name) ++ s₀ ::
                (l₂.filter (fun u => u.name ≠ t.name)).filter
                  (fun u => u.name ≠ s₀.name) := by
            rw [List.filter_append, hfcons, filter_swap]
          rw [htail1, htail2]
          simp only [analyzeVisits]
          have hlen' : (l₁'.filter (fun u => u.name ≠ t.name)).length ≤ N := by
            have := List.length_filter_le (fun u => u.name ≠ t.name) l₁'
            simp only [List.length_cons] at hlen
            omega
          have h1' : ∀ u ∈ l₁'.filter (fun u => u.name ≠ t.name), u.name ≠ s₀.name := by
            intro u hu
            exact h1 u (List.mem_cons_of_mem _ (List.mem_of_mem_filter hu))
          have h2' : ∀ u ∈ l₂.filter (fun u => u.name ≠ t.name),
              u.name = s₀.name → u = s₀ := by
            intro u hu
            exact h2 u (List.mem_of_mem_filter hu)
          have hrec := ihN (l₁'.filter (fun u => u.name ≠ t.name))
            (l₂.filter (fun u => u.name ≠ t.name)) s₀ hlen' h1' h2' tname gs mult
          rw [hrec]

/-- Claim C2's deduplication at the public entry point. -/
theorem dedup_analyze (s : SchemaModel) (l₁ l₂ : List SelectionNode)
    (s₀ : SelectionNode) (h1 : ∀ t ∈ l₁, t.name ≠ s₀.name)
    (h2 : ∀ t ∈ l₂, t.name = s₀.name → t = s₀) (sample : ResponseValue) :
    analyze s (l₁ ++ s₀ :: l₂) sample =
      analyze s (l₁ ++ s₀ :: l₂.filter (fun t => t.name ≠ s₀.name)) sample := by
  cases sample with
  | null => rfl
  | scalar => rfl
  | list es => rfl
  | object gs =>
      simp only [analyze, rawAnalyze]
      rw [dedup_core s l₁.length l₁ l₂ s₀ le_rfl h1 h2 s.queryType gs 1]

/-! Monotonicity in observed list lengths (claim C9). -/

theorem descendElems_append (s : SchemaModel) (it : FieldType)
    (children : List SelectionNode) (fname : String) (a b : List ResponseValue)
    (m : ℚ) :
    descendElems s it children fname (a ++ b) m =
      exAdd (descendElems s it children fname a m)
        (descendElems s it children fname b m) := by
  induction a with
  | nil =>
      simp only [List.nil_append, descendElems]
      rw [exAdd_zero_left]
  | cons e rest ih =>
      simp only [List.cons_append, descendElems]
      rw [ih, exAdd_assoc]

theorem lookup_cons (k₀ : String) (w₀ : ResponseValue)
    (rest : List (String × ResponseValue)) (n : String) :
    lookupResponseKey ((k₀, w₀) :: rest) n =
      if k₀ = n then some w₀ else lookupResponseKey rest n := by
  by_cases h : k₀ = n <;> simp [lookupResponseKey, List.find?, h]

theorem lookup_append_some {b : List (String × ResponseValue)} {n : String}
    {u : ResponseValue} (h : lookupResponseKey b n = some u)
    (x : List (String × ResponseValue)) :
    lookupResponseKey (b ++ x) n = some u := by
  induction b with
  | nil => simp [lookupResponseKey] at h
  | cons p rest ih =>
      obtain ⟨k₀, w₀⟩ := p
      rw [lookup_cons] at h
      rw [List.cons_append, lookup_cons]
      by_cases hk : k₀ = n
      · rw [if_pos hk] at h ⊢
        exact h
      · rw [if_neg hk] at h ⊢
        exact ih h

theorem lookup_append_none {b : List (String × ResponseValue)} {n : String}
    (h : lookupResponseKey b n = none) (x : List (String × ResponseValue)) :
    lookupResponseKey (b ++ x) n = lookupResponseKey x n := by
  induction b with
  | nil => simp
  | cons p rest ih =>
      obtain ⟨k₀, w₀⟩ := p
      rw [lookup_cons] at h
      rw [List.cons_append, lookup_cons]
      by_cases hk : k₀ = n
      · rw [if_pos hk] at h
        exact absurd h (by simp)
      · rw [if_neg hk] at h
        rw [if_neg hk]
        exact ih h

/-- Modelled from the spec: the second sample extends the first by making
one observed list longer (extra elements appended at one position of the
value tree), everything else unchanged; `refl` also allows the samples to
agree, which is what the congruence steps of the traversal need. -/
inductive ValueLE : ResponseValue → ResponseValue → Prop where
  | refl (v : ResponseValue) : ValueLE v v
  | longer (es extra : List ResponseValue) :
      ValueLE (.list es) (.list (es ++ extra))
  | listElem (b : List ResponseValue) (e e' : ResponseValue)
      (a : List ResponseValue) :
      ValueLE e e' → ValueLE (.list (b ++ e :: a)) (.list (b ++ e' :: a))
  | objField (b : List (String × ResponseValue)) (key : String)
      (w w' : ResponseValue) (a : List (String × ResponseValue)) :
      ValueLE w w' →
      ValueLE (.object (b ++ (key, w) :: a)) (.object (b ++ (key, w') :: a))

/-- The pair of samples of claim C9: the second differs from the first only
in that one observed list carries extra appended elements. -/
inductive OneListLonger : ResponseValue → ResponseValue → Prop where
  | longer (es extra : List ResponseValue) :
      OneListLonger (.list es) (.list (es ++ extra))
  | listElem (b : List ResponseValue) (e e' : ResponseValue)
      (a : List ResponseValue) :
      OneListLonger e e' →
      OneListLonger (.list (b ++ e :: a)) (.list (b ++ e' :: a))
  | objField (b : List (String × ResponseValue)) (key : String)
      (w w' : ResponseValue) (a : List (String × ResponseValue)) :
      OneListLonger w w' →
      OneListLonger (.object (b ++ (key, w) :: a)) (.object (b ++ (key, w') :: a))

theorem OneListLonger.toValueLE {v v' : ResponseValue}
    (h : OneListLonger v v') : ValueLE v v' := by
  induction h with
  | longer es extra => exact ValueLE.longer es extra
  | listElem b e e' a _ ih => exact ValueLE.listElem b e e' a ih
  | objField b key w w' a _ ih => exact ValueLE.objField b key w w' a ih

/-- The traversal is monotone along `ValueLE` (with non-negative rates and
multipliers): extending one observed list never decreases a successful
result. -/
theorem analyzer_value_mono (s : SchemaModel) (hs : ratesNonneg s)
    {v v' : ResponseValue} (hvv : ValueLE v v') :
    (∀ ftype children fname rate mult mult' r r',
        0 ≤ rate → 0 ≤ mult → mult ≤ mult' →
        analyzeFieldValue s ftype children fname rate v mult = .ok r →
        analyzeFieldValue s ftype children fname rate v' mult' = .ok r' → r ≤ r') ∧
    (∀ itemType children fname mult mult' r r', 0 ≤ mult → mult ≤ mult' →
        descendValue s itemType children fname v mult = .ok r →
        descendValue s itemType children fname v' mult' = .ok r' → r ≤ r') ∧
    (∀ gs gs', v = .object gs → v' = .object gs' →
        ∀ tname visits mult mult' r r', 0 ≤ mult → mult ≤ mult' →
          analyzeVisits s tname visits gs mult = .ok r →
          analyzeVisits s tname visits gs' mult' = .ok r' → r ≤ r') := by
  induction hvv with
  | refl v =>
      refine ⟨?_, ?_, ?_⟩
      · intro ftype children fname rate mult mult' r r' hr hm hmm h1 h2
        exact (analyzer_mult_mono s hs).2.2.1 ftype children fname rate v mult
          mult' r r' hr hm hmm h1 h2
      · intro itemType children fname mult mult' r r' hm hmm h1 h2
        exact (analyzer_mult_mono s hs).2.2.2.2 itemType children fname v mult
          mult' r r' hm hmm h1 h2
      · intro gs gs' hg hg' tname visits mult mult' r r' hm hmm h1 h2
        subst hg
        injection hg' with hgg
        subst hgg
        exact (analyzer_mult_mono s hs).1 tname visits gs mult mult' r r' hm hmm h1 h2
  | longer es extra =>
      have hlenq : ((es.length : ℚ)) ≤ (((es ++ extra).length : ℚ)) := by
        have : es.length ≤ (es ++ extra).length := by
          simp
        exact_mod_cast this
      refine ⟨?_, ?_, ?_⟩
      · intro ftype children fname rate mult mult' r r' hr hm hmm h1 h2
        cases ftype with
        | scalar =>
            rw [analyzeFieldValue.eq_def] at h1
            simp at h1
        | object tn =>
            rw [analyzeFieldValue.eq_def] at h1
            simp at h1
        | list it =>
            simp only [analyzeFieldValue] at h1 h2
            rcases (exAdd_ok_iff _ _ _).1 h1 with ⟨x, y, hx, hy, rfl⟩
            rcases (exAdd_ok_iff _ _ _).1 h2 with ⟨x', y', hx', hy', rfl⟩
            simp only [Except.ok.injEq] at hx hx'
            have hmm' : rate * mult ≤ rate * mult' := mul_le_mul_of_nonneg_left hmm hr
            have hmul' : (0 : ℚ) ≤ rate * mult' := mul_nonneg hr (le_trans hm hmm)
            have hown : x ≤ x' := by
              rw [← hx, ← hx']
              exact mul_le_mul hmm' hlenq (Nat.cast_nonneg _) hmul'
            have hm1 : (0 : ℚ) ≤ mult * (es.length : ℚ) :=
              mul_nonneg hm (Nat.cast_nonneg _)
            have hm2 : mult * (es.length : ℚ) ≤ mult' * (((es ++ extra).length : ℚ)) :=
              mul_le_mul hmm hlenq (Nat.cast_nonneg _) (le_trans hm hmm)
            have hnest : y ≤ y' := by
              by_cases hc : children.isEmpty
              · rw [if_pos hc] at hy hy'
                simp only [Except.ok.injEq] at hy hy'
                rw [← hy, ← hy']
              · rw [if_neg hc] at hy hy'
                rw [descendElems_append] at hy'
                rcases (exAdd_ok_iff _ _ _).1 hy' with ⟨y1, y2, hy1, hy2, rfl⟩
                have h01 : y ≤ y1 := (analyzer_mult_mono s hs).2.2.2.1 it children
                  fname es (mult * (es.length : ℚ)) (mult' * (((es ++ extra).length : ℚ)))
                  y y1 hm1 hm2 hy hy1
                have h02 : (0 : ℚ) ≤ y2 := (analyzer_nonneg s hs).2.2.2.1 it children
                  fname extra (mult' * (((es ++ extra).length : ℚ)))
                  (mul_nonneg (le_trans hm hmm) (Nat.cast_nonneg _)) y2 hy2
                linarith
            exact add_le_add hown hnest
      · intro itemType children fname mult mult' r r' hm hmm h1 h2
        cases itemType with
        | scalar =>
            simp only [descendValue, Except.ok.injEq] at h1 h2
            exact le_of_eq (h1.symm.trans h2)
        | object tn =>
            rw [descendValue.eq_def] at h1
            simp at h1
        | list it =>
            simp only [descendValue] at h1 h2
            rw [descendElems_append] at h2
            rcases (exAdd_ok_iff _ _ _).1 h2 with ⟨y1, y2, hy1, hy2, rfl⟩
            have hm1 : (0 : ℚ) ≤ mult * (es.length : ℚ) :=
              mul_nonneg hm (Nat.cast_nonneg _)
            have hm2 : mult * (es.length : ℚ) ≤ mult' * (((es ++ extra).length : ℚ)) :=
              mul_le_mul hmm hlenq (Nat.cast_nonneg _) (le_trans hm hmm)
            have h01 : r ≤ y1 := (analyzer_mult_mono s hs).2.2.2.1 it children
              fname es (mult * (es.length : ℚ)) (mult' * (((es ++ extra).length : ℚ)))
              r y1 hm1 hm2 h1 hy1
            have h02 : (0 : ℚ) ≤ y2 := (analyzer_nonneg s hs).2.2.2.1 it children
              fname extra (mult' * (((es ++ extra).length : ℚ)))
              (mul_nonneg (le_trans hm hmm) (Nat.cast_nonneg _)) y2 hy2
            linarith
      · intro gs gs' hg hg' tname visits mult mult' r r' hm hmm h1 h2
        simp at hg
  | listElem b e e' a hee ih =>
      obtain ⟨ihF, ihD, ihO⟩ := ih
      have hL : ((b ++ e' :: a).length : ℚ) = ((b ++ e :: a).length : ℚ) := by
        simp
      refine ⟨?_, ?_, ?_⟩
      · intro ftype children fname rate mult mult' r r' hr hm hmm h1 h2
        cases ftype with
        | scalar =>
            rw [analyzeFieldValue.eq_def] at h1
            simp at h1
        | object tn =>
            rw [analyzeFieldValue.eq_def] at h1
            simp at h1
        | list it =>
            simp only [analyzeFieldValue] at h1 h2
            rw [hL] at h2
            rcases (exAdd_ok_iff _ _ _).1 h1 with ⟨x, y, hx, hy, rfl⟩
            rcases (exAdd_ok_iff _ _ _).1 h2 with ⟨x', y', hx', hy', rfl⟩
            simp only [Except.ok.injEq] at hx hx'
            have hown : x ≤ x' := by
              rw [← hx, ← hx']
              exact mul_le_mul_of_nonneg_right (mul_le_mul_of_nonneg_left hmm hr)
                (Nat.cast_nonneg _)
            have hm1 : (0 : ℚ) ≤ mult * ((b ++ e :: a).length : ℚ) :=
              mul_nonneg hm (Nat.cast_nonneg _)
            have hm2 : mult * ((b ++ e :: a).length : ℚ) ≤
                mult' * ((b ++ e :: a).length : ℚ) :=
              mul_le_mul_of_nonneg_right hmm (Nat.cast_nonneg _)
            have hnest : y ≤ y' := by
              by_cases hc : children.isEmpty
              · rw [if_pos hc] at hy hy'
                simp only [Except.ok.injEq] at hy hy'
                rw [← hy, ← hy']
              · rw [if_neg hc] at hy hy'
                rw [descendElems_append] at hy hy'
                rcases (exAdd_ok_iff _ _ _).1 hy with ⟨yb, yr, hyb, hyr, rfl⟩
                rcases (exAdd_ok_iff _ _ _).1 hy' with ⟨yb', yr', hyb', hyr', rfl⟩
                simp only [descendElems] at hyr hyr'
                rcases (exAdd_ok_iff _ _ _).1 hyr with ⟨ye, ya, hye, hya, rfl⟩
                rcases (exAdd_ok_iff _ _ _).1 hyr' with ⟨ye', ya', hye', hya', rfl⟩
                have h01 : yb ≤ yb' := (analyzer_mult_mono s hs).2.2.2.1 it children
                  fname b _ _ yb yb' hm1 hm2 hyb hyb'
                have h02 : ye ≤ ye' := ihD it children fname _ _ ye ye' hm1 hm2 hye hye'
                have h03 : ya ≤ ya' := (analyzer_mult_mono s hs).2.2.2.1 it children
                  fname a _ _ ya ya' hm1 hm2 hya hya'
                linarith
            exact add_le_add hown hnest
      · intro itemType children fname mult mult' r r' hm hmm h1 h2
        cases itemType with
        | scalar =>
            simp only [descendValue, Except.ok.injEq] at h1 h2
            exact le_of_eq (h1.symm.trans h2)
        | object tn =>
            rw [descendValue.eq_def] at h1
            simp at h1
        | list it =>
            simp only [descendValue] at h1 h2
            rw [hL] at h2
            rw [descendElems_append] at h1 h2
            rcases (exAdd_ok_iff _ _ _).1 h1 with ⟨yb, yr, hyb, hyr, rfl⟩
            rcases (exAdd_ok_iff _ _ _).1 h2 with ⟨yb', yr', hyb', hyr', rfl⟩
            simp only [descendElems] at hyr hyr'
            rcases (exAdd_ok_iff _ _ _).1 hyr with ⟨ye, ya, hye, hya, rfl⟩
            rcases (exAdd_ok_iff _ _ _).1 hyr' with ⟨ye', ya', hye', hya', rfl⟩
            have hm1 : (0 : ℚ) ≤ mult * ((b ++ e :: a).length : ℚ) :=
              mul_nonneg hm (Nat.cast_nonneg _)
            have hm2 : mult * ((b ++ e :: a).length : ℚ) ≤
                mult' * ((b ++ e :: a).length : ℚ) :=
              mul_le_mul_of_nonneg_right hmm (Nat.cast_nonneg _)
            have h01 : yb ≤ yb' := (analyzer_mult_mono s hs).2.2.2.1 it children
              fname b _ _ yb yb' hm1 hm2 hyb hyb'
            have h02 : ye ≤ ye' := ihD it children fname _ _ ye ye' hm1 hm2 hye hye'
            have h03 : ya ≤ ya' := (analyzer_mult_mono s hs).2.2.2.1 it children
              fname a _ _ ya ya' hm1 hm2 hya hya'
            linarith
      · intro gs gs' hg hg' tname visits mult mult' r r' hm hmm h1 h2
        simp at hg
  | objField b key w w' a hww ih =>
      obtain ⟨ihF, ihD, ihO⟩ := ih
      have hobj : ∀ tname visits mult mult' r r', 0 ≤ mult → mult ≤ mult' →
          analyzeVisits s tname visits (b ++ (key, w) :: a) mult = .ok r →
          analyzeVisits s tname visits (b ++ (key, w') :: a) mult' = .ok r' →
          r ≤ r' := by
        intro tname visits
        induction visits with
        | nil =>
            intro mult mult' r r' hm hmm h1 h2
            simp only [analyzeVisits, Except.ok.injEq] at h1 h2
            exact le_of_eq (h1.symm.trans h2)
        | cons t rest ihv =>
            intro mult mult' r r' hm hmm h1 h2
            simp only [analyzeVisits] at h1 h2
            rcases (exAdd_ok_iff _ _ _).1 h1 with ⟨x, y, hx, hy, rfl⟩
            rcases (exAdd_ok_iff _ _ _).1 h2 with ⟨x', y', hx', hy', rfl⟩
            have hvisit : x ≤ x' := by
              cases hres : resolveField s tname t.name with
              | none =>
                  simp only [analyzeVisit, hres] at hx
                  exact Except.noConfusion hx
              | some fd =>
                  have hrnn := rateOf_nonneg_of_resolve hs hres
                  cases hbl : lookupResponseKey b t.name with
                  | some u =>
                      have e1 : lookupResponseKey (b ++ (key, w) :: a) t.name =
                          some u := lookup_append_some hbl _
                      have e2 : lookupResponseKey (b ++ (key, w') :: a) t.name =
                          some u := lookup_append_some hbl _
                      simp only [analyzeVisit, hres, e1] at hx
                      simp only [analyzeVisit, hres, e2] at hx'
                      exact (analyzer_mult_mono s hs).2.2.1 fd.type t.children
                        t.name (rateOf fd) u mult mult' x x' hrnn hm hmm hx hx'
                  | none =>
                      by_cases hk : key = t.name
                      · have e1 : lookupResponseKey (b ++ (key, w) :: a) t.name =
                            some w := by
                          rw [lookup_append_none hbl, lookup_cons, if_pos hk]
                        have e2 : lookupResponseKey (b ++ (key, w') :: a) t.name =
                            some w' := by
                          rw [lookup_append_none hbl, lookup_cons, if_pos hk]
                        simp only [analyzeVisit, hres, e1] at hx
                        simp only [analyzeVisit, hres, e2] at hx'
                        exact ihF fd.type t.children t.name (rateOf fd) mult mult'
                          x x' hrnn hm hmm hx hx'
                      · cases hal : lookupResponseKey a t.name with
                        | none =>
                            have e1 : lookupResponseKey (b ++ (key, w) :: a) t.name =
                                none := by
                              rw [lookup_append_none hbl, lookup_cons, if_neg hk, hal]
                            have e2 : lookupResponseKey (b ++ (key, w') :: a) t.name =
                                none := by
                              rw [lookup_append_none hbl, lookup_cons, if_neg hk, hal]
                            simp only [analyzeVisit, hres, e1, Except.ok.injEq] at hx
                            simp only [analyzeVisit, hres, e2, Except.ok.injEq] at hx'
                            exact le_of_eq (hx.symm.trans hx')
                        | some u =>
                            have e1 : lookupResponseKey (b ++ (key, w) :: a) t.name =
                                some u := by
                              rw [lookup_append_none hbl, lookup_cons, if_neg hk, hal]
                            have e2 : lookupResponseKey (b ++ (key, w') :: a) t.name =
                                some u := by
                              rw [lookup_append_none hbl, lookup_cons, if_neg hk, hal]
                            simp only [analyzeVisit, hres, e1] at hx
                            simp only [analyzeVisit, hres, e2] at hx'
                            exact (analyzer_mult_mono s hs).2.2.1 fd.type t.children
                              t.name (rateOf fd) u mult mult' x x' hrnn hm hmm hx hx'
            have hrest : y ≤ y' := ihv mult mult' y y' hm hmm hy hy'
            exact add_le_add hvisit hrest
      refine ⟨?_, ?_, ?_⟩
      · intro ftype children fname rate mult mult' r r' hr hm hmm h1 h2
        cases ftype with
        | scalar =>
            rw [analyzeFieldValue.eq_def] at h1
            simp at h1
        | list it =>
            rw [analyzeFieldValue.eq_def] at h1
            simp at h1
        | object tn =>
            simp only [analyzeFieldValue] at h1 h2
            rcases (exAdd_ok_iff _ _ _).1 h1 with ⟨x, y, hx, hy, rfl⟩
            rcases (exAdd_ok_iff _ _ _).1 h2 with ⟨x', y', hx', hy', rfl⟩
            simp only [Except.ok.injEq] at hx hx'
            have hown : x ≤ x' := by
              rw [← hx, ← hx']
              exact mul_le_mul_of_nonneg_left hmm hr
            have hnest : y ≤ y' := hobj tn (mergeSelections children) mult mult'
              y y' hm hmm hy hy'
            exact add_le_add hown hnest
      · intro itemType children fname mult mult' r r' hm hmm h1 h2
        cases itemType with
        | scalar =>
            simp only [descendValue, Except.ok.injEq] at h1 h2
            exact le_of_eq (h1.symm.trans h2)
        | list it =>
            rw [descendValue.eq_def] at h1
            simp at h1
        | object tn =>
            simp only [descendValue] at h1 h2
            exact hobj tn (mergeSelections children) mult mult' r r' hm hmm h1 h2
      · intro gs gs' hg hg' tname visits mult mult' r r' hm hmm h1 h2
        injection hg with hgg
        injection hg' with hgg'
        subst hgg
        subst hgg'
        exact hobj tname visits mult mult' r r' hm hmm h1 h2

/-- Monotonicity of the raw accumulated cost along `ValueLE`. -/
theorem rawAnalyze_mono (s : SchemaModel) (hs : ratesNonneg s)
    {v v' : ResponseValue} (hvv : ValueLE v v') {q : List SelectionNode}
    {r r' : ℚ} (h1 : rawAnalyze s q v = .ok r)
    (h2 : rawAnalyze s q v' = .ok r') : r ≤ r' := by
  cases hvv with
  | refl w =>
      rw [h1] at h2
      injection h2 with hh
      exact le_of_eq hh
  | longer es extra =>
      simp [rawAnalyze] at h1
  | listElem b e e' a hee =>
      simp [rawAnalyze] at h1
  | objField b key w w' a hww =>
      simp only [rawAnalyze] at h1 h2
      exact ((analyzer_value_mono s hs
          (ValueLE.objField b key w w' a hww)).2.2) _ _ rfl rfl s.queryType
        (mergeSelections q) 1 1 r r' zero_le_one le_rfl h1 h2

theorem clampScale_mono {x y : ℚ} (h : x ≤ y) : clampScale x ≤ clampScale y := by
  unfold clampScale
  exact min_le_min (max_le_max h le_rfl) le_rfl

/-! Helpers for error propagation and the clamp. -/

theorem analyzeVisits_ok_of_mem {s : SchemaModel} {tname : String}
    {visits : List SelectionNode} {gs : List (String × ResponseValue)}
    {mult : ℚ} {r : ℚ} (h : analyzeVisits s tname visits gs mult = .ok r)
    {sel : SelectionNode} (hmem : sel ∈ visits) :
    ∃ c, analyzeVisit s tname sel gs mult = .ok c := by
  induction visits generalizing r with
  | nil => simp at hmem
  | cons t rest ih =>
      simp only [analyzeVisits] at h
      rcases (exAdd_ok_iff _ _ _).1 h with ⟨x, y, hx, hy, rfl⟩
      rcases List.mem_cons.1 hmem with rfl | hm
      · exact ⟨x, hx⟩
      · exact ih hy hm

theorem analyze_error_of_visit_error {s : SchemaModel} {q : List SelectionNode}
    {gs : List (String × ResponseValue)} {sel : SelectionNode}
    (hmem : sel ∈ mergeSelections q)
    (herr : ∀ c, analyzeVisit s s.queryType sel gs 1 ≠ .ok c) :
    ∃ e, analyze s q (.object gs) = .error e := by
  cases h : rawAnalyze s q (.object gs) with
  | error e =>
      refine ⟨e, ?_⟩
      simp [analyze, h]
  | ok raw =>
      exfalso
      simp only [rawAnalyze] at h
      obtain ⟨c, hc⟩ := analyzeVisits_ok_of_mem h hmem
      exact herr c hc

theorem clampScale_bounds (x : ℚ) :
    MIN_SCALE ≤ clampScale x ∧ clampScale x ≤ MAX_SCALE := by
  unfold clampScale MIN_SCALE MAX_SCALE
  constructor
  · exact le_min (le_max_right _ _) (by norm_num)
  · exact min_le_right _ _

theorem clampScale_of_lt_min {x : ℚ} (h : x < MIN_SCALE) :
    clampScale x = MIN_SCALE := by
  unfold clampScale MIN_SCALE MAX_SCALE at *
  rw [max_eq_right h.le]
  exact min_eq_left (by norm_num)

theorem clampScale_of_max_le {x : ℚ} (h : MAX_SCALE ≤ x) :
    clampScale x = MAX_SCALE := by
  unfold clampScale MIN_SCALE MAX_SCALE at *
  rw [max_eq_left (le_trans (by norm_num) h)]
  exact min_eq_right h

/-! The claims. -/

/-- C1: for the schema declaring list field `cartLines` with rate 0.005,
the query selecting only that field, and a sample holding a 500-element
list, `analyze` succeeds and returns exactly 2.5; in general a resolved
field's own contribution is `rate * cardinality_multiplier * own_list_length`,
where the own list length is the observed element count for a declared list
field and 1 otherwise (scalar shown here; an object field likewise
contributes `rate * mult`). -/
theorem claim_C1_own_contribution :
    analyze schemaCartLines queryCartLines (sampleCartLines 500) = .ok (5 / 2) ∧
    (∀ (s : SchemaModel) (tname : String) (sel : SelectionNode)
        (gs : List (String × ResponseValue)) (mult : ℚ) (fd : FieldDefinition)
        (it : FieldType) (es : List ResponseValue),
        resolveField s tname sel.name = some fd → fd.type = .list it →
        lookupResponseKey gs sel.name = some (.list es) →
        analyzeVisit s tname sel gs mult =
          exAdd (.ok (rateOf fd * mult * (es.length : ℚ)))
            (if sel.children.isEmpty then .ok 0
             else descendElems s it sel.children sel.name es
               (mult * (es.length : ℚ)))) ∧
    (∀ (s : SchemaModel) (tname : String) (sel : SelectionNode)
        (gs : List (String × ResponseValue)) (mult : ℚ) (fd : FieldDefinition),
        resolveField s tname sel.name = some fd → fd.type = .scalar →
        lookupResponseKey gs sel.name = some .scalar →
        analyzeVisit s tname sel gs mult = .ok (rateOf fd * mult * 1)) := by
  refine ⟨?_, ?_, ?_⟩
  · rw [analyze_cartLines_eval]
    norm_num [clampScale, MIN_SCALE, MAX_SCALE]
  · intro s tname sel gs mult fd it es hres hft hlook
    simp only [analyzeVisit, hres, hlook, hft, analyzeFieldValue]
  · intro s tname sel gs mult fd hres hft hlook
    simp only [analyzeVisit, hres, hlook, hft, analyzeFieldValue, mul_one]

/-- Witness for C1 at the concrete fixtures: the 500-element cartLines
sample evaluates to 2.5, the list clause applies to that visit, and the
scalar clause applies to the `field: String` fixture. -/
theorem claim_C1_witness :
    analyze schemaCartLines queryCartLines (sampleCartLines 500) = .ok (5 / 2) ∧
    analyzeVisit schemaCartLines queryTypeName (.mk cartLinesLabel [])
      [(cartLinesLabel, .list (List.replicate 500 .scalar))] 1 =
      exAdd
        (.ok (rateOf ⟨cartLinesLabel, .list .scalar, some (0.005 : ℚ)⟩ * 1 *
          ((List.replicate 500 (ResponseValue.scalar)).length : ℚ)))
        (if (SelectionNode.mk cartLinesLabel []).children.isEmpty then .ok 0
         else descendElems schemaCartLines .scalar
           (SelectionNode.mk cartLinesLabel []).children
           (SelectionNode.mk cartLinesLabel []).name
           (List.replicate 500 .scalar)
           (1 * ((List.replicate 500 (ResponseValue.scalar)).length : ℚ))) ∧
    analyzeVisit schemaScalarField queryTypeName (.mk fieldLabel [])
      [(fieldLabel, .scalar)] 1 =
      .ok (rateOf ⟨fieldLabel, .scalar, some (0.005 : ℚ)⟩ * 1 * 1) := by
  refine ⟨claim_C1_own_contribution.1, ?_, ?_⟩
  · exact claim_C1_own_contribution.2.1 schemaCartLines queryTypeName
      (.mk cartLinesLabel []) [(cartLinesLabel, .list (List.replicate 500 .scalar))]
      1 ⟨cartLinesLabel, .list .scalar, some (0.005 : ℚ)⟩ .scalar
      (List.replicate 500 .scalar) rfl rfl rfl
  · exact claim_C1_own_contribution.2.2 schemaScalarField queryTypeName
      (.mk fieldLabel []) [(fieldLabel, .scalar)] 1
      ⟨fieldLabel, .scalar, some (0.005 : ℚ)⟩ rfl rfl rfl

/-- C3: whenever `analyze` succeeds, the returned scale factor is the clamp
`min (max raw 1) 10` of the raw accumulated cost, hence always between
`MIN_SCALE = 1` and `MAX_SCALE = 10`. -/
theorem claim_C3_clamp :
    ∀ (s : SchemaModel) (q : List SelectionNode) (v : ResponseValue) (r : ℚ),
      analyze s q v = .ok r →
      (∃ raw, rawAnalyze s q v = .ok raw ∧ r = clampScale raw) ∧
      MIN_SCALE ≤ r ∧ r ≤ MAX_SCALE := by
  intro s q v r h
  cases hraw : rawAnalyze s q v with
  | error e =>
      rw [analyze, hraw] at h
      exact Except.noConfusion h
  | ok raw =>
      rw [analyze, hraw] at h
      injection h with hh
      refine ⟨⟨raw, rfl, hh.symm⟩, ?_, ?_⟩
      · rw [← hh]
        exact (clampScale_bounds raw).1
      · rw [← hh]
        exact (clampScale_bounds raw).2

/-- Witness for C3 at the scalar-field fixture, whose analysis succeeds
with scale factor 1. -/
theorem claim_C3_witness :
    analyze schemaScalarField queryField sampleScalarField = .ok 1 ∧
    ((∃ raw, rawAnalyze schemaScalarField queryField sampleScalarField = .ok raw ∧
        (1 : ℚ) = clampScale raw) ∧
      MIN_SCALE ≤ (1 : ℚ) ∧ (1 : ℚ) ≤ MAX_SCALE) :=
  ⟨analyze_scalarField_eval,
    claim_C3_clamp schemaScalarField queryField sampleScalarField 1
      analyze_scalarField_eval⟩

/-- C4: when every rate in the schema is 0 or absent, a successful analysis
returns exactly 1; more generally any raw cost below the floor clamps to 1;
in particular the scalar-field fixture (raw cost 0.005) returns 1, and the
empty query returns 1. -/
theorem claim_C4_floor :
    (∀ (s : SchemaModel) (q : List SelectionNode) (v : ResponseValue) (r : ℚ),
        ratesZero s → analyze s q v = .ok r → r = MIN_SCALE) ∧
    (∀ (s : SchemaModel) (q : List SelectionNode) (v : ResponseValue) (raw : ℚ),
        rawAnalyze s q v = .ok raw → raw < MIN_SCALE →
        analyze s q v = .ok MIN_SCALE) ∧
    analyze schemaScalarField queryField sampleScalarField = .ok MIN_SCALE ∧
    (∀ (s : SchemaModel) (gs : List (String × ResponseValue)),
        analyze s [] (.object gs) = .ok MIN_SCALE) := by
  refine ⟨?_, ?_, ?_, ?_⟩
  · intro s q v r hz h
    cases hraw : rawAnalyze s q v with
    | error e =>
        rw [analyze, hraw] at h
        exact Except.noConfusion h
    | ok raw =>
        rw [analyze, hraw] at h
        injection h with hh
        have hraw0 : raw = 0 := by
          cases v with
          | null =>
              simp only [rawAnalyze, Except.ok.injEq] at hraw
              exact hraw.symm
          | scalar => simp [rawAnalyze] at hraw
          | list es => simp [rawAnalyze] at hraw
          | object gs =>
              simp only [rawAnalyze] at hraw
              exact (analyzer_zero_rates s hz).1 s.queryType (mergeSelections q)
                gs 1 raw hraw
        rw [← hh, hraw0]
        exact clampScale_of_lt_min (by norm_num [MIN_SCALE])
  · intro s q v raw hraw hlt
    simp only [analyze, hraw]
    rw [clampScale_of_lt_min hlt]
  · rw [analyze_scalarField_eval]
    norm_num [MIN_SCALE]
  · intro s gs
    have hraw : rawAnalyze s [] (.object gs) = .ok 0 := by
      simp [rawAnalyze, mergeSelections, analyzeVisits]
    simp only [analyze, hraw]
    rw [clampScale_of_lt_min (by norm_num [MIN_SCALE])]

/-- Schema with the only field carrying no rate annotation. -/
def schemaNoRate : SchemaModel :=
  ⟨[⟨queryTypeName, [⟨fieldLabel, .scalar, none⟩]⟩], queryTypeName⟩

/-- Witness for C4: the no-rate schema satisfies `ratesZero` and its
analysis of the scalar sample returns 1 = MIN_SCALE; the scalar-field
fixture's raw cost 0.005 is below the floor and clamps to 1. -/
theorem claim_C4_witness :
    (ratesZero schemaNoRate ∧
      analyze schemaNoRate queryField sampleScalarField = .ok 1 ∧
      (1 : ℚ) = MIN_SCALE) ∧
    (rawAnalyze schemaScalarField queryField sampleScalarField = .ok (0.005 : ℚ) ∧
      (0.005 : ℚ) < MIN_SCALE ∧
      analyze schemaScalarField queryField sampleScalarField = .ok MIN_SCALE) := by
  have hz : ratesZero schemaNoRate := by
    intro td htd fd hfd
    simp only [schemaNoRate, List.mem_singleton] at htd
    subst htd
    simp only [List.mem_singleton] at hfd
    subst hfd
    rfl
  have heval : analyze schemaNoRate queryField sampleScalarField = .ok 1 := by
    have hraw : rawAnalyze schemaNoRate queryField sampleScalarField = .ok 0 := by
      simp [rawAnalyze, analyzeVisits, analyzeVisit, analyzeFieldValue,
        mergeSelections, childrenOf, resolveField, lookupResponseKey, rateOf,
        schemaNoRate, queryField, sampleScalarField, queryTypeName, fieldLabel,
        SelectionNode.name, SelectionNode.children, exAdd]
    simp only [analyze, hraw]
    rw [clampScale_of_lt_min (by norm_num [MIN_SCALE])]
    norm_num [MIN_SCALE]
  refine ⟨⟨hz, heval, ?_⟩, ?_, ?_, ?_⟩
  · exact claim_C4_floor.1 schemaNoRate queryField sampleScalarField 1 hz heval
  · exact rawAnalyze_scalarField_eval
  · norm_num [MIN_SCALE]
  · exact claim_C4_floor.2.1 schemaScalarField queryField sampleScalarField
      (0.005 : ℚ) rawAnalyze_scalarField_eval (by norm_num [MIN_SCALE])

/-- C5: any analysis whose raw accumulated cost is at least 10 reports
exactly 10; in particular the cartLines schema over a 1,000,000-element
sample (raw cost 5000) reports 10. -/
theorem claim_C5_ceiling :
    (∀ (s : SchemaModel) (q : List SelectionNode) (v : ResponseValue) (raw : ℚ),
        rawAnalyze s q v = .ok raw → MAX_SCALE ≤ raw →
        analyze s q v = .ok MAX_SCALE) ∧
    analyze schemaCartLines queryCartLines (sampleCartLines 1000000) =
      .ok MAX_SCALE := by
  constructor
  · intro s q v raw hraw hge
    simp only [analyze, hraw]
    rw [clampScale_of_max_le hge]
  · rw [analyze_cartLines_eval]
    norm_num [clampScale, MIN_SCALE, MAX_SCALE]

/-- Witness for C5: the 1,000,000-element cartLines sample has raw cost
5000, which is at least the ceiling, and the reported factor is 10. -/
theorem claim_C5_witness :
    rawAnalyze schemaCartLines queryCartLines (sampleCartLines 1000000) =
      .ok (5000 : ℚ) ∧
    MAX_SCALE ≤ (5000 : ℚ) ∧
    analyze schemaCartLines queryCartLines (sampleCartLines 1000000) =
      .ok MAX_SCALE := by
  have hraw : rawAnalyze schemaCartLines queryCartLines (sampleCartLines 1000000) =
      .ok (5000 : ℚ) := by
    rw [rawAnalyze_cartLines_eval]
    norm_num
  refine ⟨hraw, by norm_num [MAX_SCALE], ?_⟩
  exact claim_C5_ceiling.1 schemaCartLines queryCartLines
    (sampleCartLines 1000000) 5000 hraw (by norm_num [MAX_SCALE])

/-- C2: a query in which a field is selected N ≥ 1 times at one selection
level with identical sub-selections analyzes to the same scale factor as the
query selecting that field exactly once; for the `field: [String]` fixture
with rate 0.05 and a 200-element sample, `{ field field }` and `{ field }`
both give `min (max (0.05 * 200) 1) 10 = 10`.  (The repository's own test
`test_no_double_counting_for_duplicate_fields_with_array` instead asserts
1.0 there, contradicting its own explanatory comment; see the claim's
divergence record.) -/
theorem claim_C2_merge_idempotence :
    (∀ (s : SchemaModel) (l₁ l₂ : List SelectionNode) (s₀ : SelectionNode)
        (sample : ResponseValue),
        (∀ t ∈ l₁, t.name ≠ s₀.name) →
        (∀ t ∈ l₂, t.name = s₀.name → t = s₀) →
        analyze s (l₁ ++ s₀ :: l₂) sample =
          analyze s (l₁ ++ s₀ :: l₂.filter (fun t => t.name ≠ s₀.name)) sample) ∧
    analyze schemaListField queryFieldTwice (sampleFieldList 200) =
      analyze schemaListField queryField (sampleFieldList 200) ∧
    analyze schemaListField queryField (sampleFieldList 200) = .ok 10 := by
  refine ⟨?_, ?_, ?_⟩
  · intro s l₁ l₂ s₀ sample h1 h2
    exact dedup_analyze s l₁ l₂ s₀ h1 h2 sample
  · rw [analyze_listField_twice_eval, analyze_listField_single_eval]
  · rw [analyze_listField_single_eval]
    norm_num [clampScale, MIN_SCALE, MAX_SCALE]

/-- Witness for C2: the duplicate-selection fixture discharges the
hypotheses of the general statement, and the duplicated query evaluates to
the same factor 10 as the single-selection query. -/
theorem claim_C2_witness :
    (∀ t ∈ ([] : List SelectionNode),
        t.name ≠ (SelectionNode.mk fieldLabel []).name) ∧
    (∀ t ∈ [SelectionNode.mk fieldLabel []],
        t.name = (SelectionNode.mk fieldLabel []).name →
        t = SelectionNode.mk fieldLabel []) ∧
    analyze schemaListField
        ([] ++ SelectionNode.mk fieldLabel [] :: [SelectionNode.mk fieldLabel []])
        (sampleFieldList 200) =
      analyze schemaListField
        ([] ++ SelectionNode.mk fieldLabel [] ::
          [SelectionNode.mk fieldLabel []].filter
            (fun t => t.name ≠ (SelectionNode.mk fieldLabel []).name))
        (sampleFieldList 200) ∧
    analyze schemaListField queryFieldTwice (sampleFieldList 200) = .ok 10 := by
  have h1 : ∀ t ∈ ([] : List SelectionNode),
      t.name ≠ (SelectionNode.mk fieldLabel []).name := by
    intro t ht
    simp at ht
  have h2 : ∀ t ∈ [SelectionNode.mk fieldLabel []],
      t.name = (SelectionNode.mk fieldLabel []).name →
      t = SelectionNode.mk fieldLabel [] := by
    intro t ht _
    simpa using ht
  refine ⟨h1, h2, ?_, ?_⟩
  · exact claim_C2_merge_idempotence.1 schemaListField []
      [SelectionNode.mk fieldLabel []] (SelectionNode.mk fieldLabel [])
      (sampleFieldList 200) h1 h2
  · rw [claim_C2_merge_idempotence.2.1]
    exact claim_C2_merge_idempotence.2.2

/-- Label used by the C6 witness for a field absent from the schema. -/
def missingLabel : String := "missing"

/-- C6: a selection whose field name does not resolve in the type being
visited makes that visit fail with a `schemaResolution` error carrying the
offending field name (and enclosing type name), and the whole analysis
returns an error rather than a zero-cost success. -/
theorem claim_C6_unresolved_field :
    ∀ (s : SchemaModel) (q : List SelectionNode)
      (gs : List (String × ResponseValue)) (sel : SelectionNode),
      sel ∈ mergeSelections q →
      resolveField s s.queryType sel.name = none →
      analyzeVisit s s.queryType sel gs 1 =
        .error (.schemaResolution sel.name s.queryType) ∧
      ∃ e, analyze s q (.object gs) = .error e := by
  intro s q gs sel hmem hres
  have hvisit : analyzeVisit s s.queryType sel gs 1 =
      .error (.schemaResolution sel.name s.queryType) := by
    simp only [analyzeVisit, hres]
  refine ⟨hvisit, ?_⟩
  refine analyze_error_of_visit_error hmem ?_
  intro c hc
  rw [hvisit] at hc
  exact Except.noConfusion hc

/-- Witness for C6: querying `{ missing }` against the scalar-field schema
fails with a resolution error carrying the name `missing`. -/
theorem claim_C6_witness :
    (SelectionNode.mk missingLabel [] ∈
      mergeSelections [SelectionNode.mk missingLabel []]) ∧
    resolveField schemaScalarField schemaScalarField.queryType
      (SelectionNode.mk missingLabel []).name = none ∧
    analyzeVisit schemaScalarField schemaScalarField.queryType
        (SelectionNode.mk missingLabel []) [(fieldLabel, .scalar)] 1 =
      .error (.schemaResolution (SelectionNode.mk missingLabel []).name
        schemaScalarField.queryType) ∧
    ∃ e, analyze schemaScalarField [SelectionNode.mk missingLabel []]
      (.object [(fieldLabel, .scalar)]) = .error e := by
  have hmem : SelectionNode.mk missingLabel [] ∈
      mergeSelections [SelectionNode.mk missingLabel []] := by
    simp [mergeSelections, childrenOf, SelectionNode.name, SelectionNode.children]
  have hres : resolveField schemaScalarField schemaScalarField.queryType
      (SelectionNode.mk missingLabel []).name = none := rfl
  obtain ⟨hvisit, he⟩ := claim_C6_unresolved_field schemaScalarField
    [SelectionNode.mk missingLabel []] [(fieldLabel, .scalar)]
    (SelectionNode.mk missingLabel []) hmem hres
  exact ⟨hmem, hres, hvisit, he⟩

/-- C7: a response value whose shape disagrees with the declared shape at a
visited field is a hard error — a declared scalar receiving a list, and a
declared list receiving a scalar or an object, each fail with a
`shapeMismatch` error; a non-object non-null root sample fails likewise,
and any such visit makes the whole analysis return an error. -/
theorem claim_C7_shape_mismatch :
    (∀ (s : SchemaModel) (tname : String) (sel : SelectionNode)
        (gs : List (String × ResponseValue)) (mult : ℚ) (fd : FieldDefinition)
        (es : List ResponseValue),
        resolveField s tname sel.name = some fd → fd.type = .scalar →
        lookupResponseKey gs sel.name = some (.list es) →
        analyzeVisit s tname sel gs mult = .error (.shapeMismatch sel.name)) ∧
    (∀ (s : SchemaModel) (tname : String) (sel : SelectionNode)
        (gs : List (String × ResponseValue)) (mult : ℚ) (fd : FieldDefinition)
        (it : FieldType),
        resolveField s tname sel.name = some fd → fd.type = .list it →
        lookupResponseKey gs sel.name = some .scalar →
        analyzeVisit s tname sel gs mult = .error (.shapeMismatch sel.name)) ∧
    (∀ (s : SchemaModel) (tname : String) (sel : SelectionNode)
        (gs hs' : List (String × ResponseValue)) (mult : ℚ) (fd : FieldDefinition)
        (it : FieldType),
        resolveField s tname sel.name = some fd → fd.type = .list it →
        lookupResponseKey gs sel.name = some (.object hs') →
        analyzeVisit s tname sel gs mult = .error (.shapeMismatch sel.name)) ∧
    (∀ (s : SchemaModel) (q : List SelectionNode) (es : List ResponseValue),
        analyze s q (.list es) = .error (.shapeMismatch rootLabel)) ∧
    (∀ (s : SchemaModel) (q : List SelectionNode)
        (gs : List (String × ResponseValue)) (sel : SelectionNode)
        (fd : FieldDefinition) (es : List ResponseValue),
        sel ∈ mergeSelections q →
        resolveField s s.queryType sel.name = some fd → fd.type = .scalar →
        lookupResponseKey gs sel.name = some (.list es) →
        ∃ e, analyze s q (.object gs) = .error e) := by
  refine ⟨?_, ?_, ?_, ?_, ?_⟩
  · intro s tname sel gs mult fd es hres hft hlook
    simp only [analyzeVisit, hres, hlook, hft, analyzeFieldValue]
  · intro s tname sel gs mult fd it hres hft hlook
    simp only [analyzeVisit, hres, hlook, hft, analyzeFieldValue]
  · intro s tname sel gs hs' mult fd it hres hft hlook
    simp only [analyzeVisit, hres, hlook, hft, analyzeFieldValue]
  · intro s q es
    rfl
  · intro s q gs sel fd es hmem hres hft hlook
    refine analyze_error_of_visit_error hmem ?_
    intro c hc
    rw [show analyzeVisit s s.queryType sel gs 1 =
        .error (.shapeMismatch sel.name) by
      simp only [analyzeVisit, hres, hlook, hft, analyzeFieldValue]] at hc
    exact Except.noConfusion hc

/-- Witness for C7: a list arriving at the declared scalar `field`, a
scalar and an object arriving at the declared list `cartLines`, and a list
at the root each yield shape-mismatch errors. -/
theorem claim_C7_witness :
    analyzeVisit schemaScalarField queryTypeName (.mk fieldLabel [])
        [(fieldLabel, .list [])] 1 =
      .error (.shapeMismatch (SelectionNode.mk fieldLabel []).name) ∧
    analyzeVisit schemaCartLines queryTypeName (.mk cartLinesLabel [])
        [(cartLinesLabel, .scalar)] 1 =
      .error (.shapeMismatch (SelectionNode.mk cartLinesLabel []).name) ∧
    analyzeVisit schemaCartLines queryTypeName (.mk cartLinesLabel [])
        [(cartLinesLabel, .object [])] 1 =
      .error (.shapeMismatch (SelectionNode.mk cartLinesLabel []).name) ∧
    analyze schemaScalarField queryField (.list []) =
      .error (.shapeMismatch rootLabel) ∧
    ∃ e, analyze schemaScalarField queryField
      (.object [(fieldLabel, .list [])]) = .error e := by
  refine ⟨?_, ?_, ?_, ?_, ?_⟩
  · exact claim_C7_shape_mismatch.1 schemaScalarField queryTypeName
      (.mk fieldLabel []) [(fieldLabel, .list [])] 1
      ⟨fieldLabel, .scalar, some (0.005 : ℚ)⟩ [] rfl rfl rfl
  · exact claim_C7_shape_mismatch.2.1 schemaCartLines queryTypeName
      (.mk cartLinesLabel []) [(cartLinesLabel, .scalar)] 1
      ⟨cartLinesLabel, .list .scalar, some (0.005 : ℚ)⟩ .scalar rfl rfl rfl
  · exact claim_C7_shape_mismatch.2.2.1 schemaCartLines queryTypeName
      (.mk cartLinesLabel []) [(cartLinesLabel, .object [])] [] 1
      ⟨cartLinesLabel, .list .scalar, some (0.005 : ℚ)⟩ .scalar rfl rfl rfl
  · exact claim_C7_shape_mismatch.2.2.2.1 schemaScalarField queryField []
  · refine claim_C7_shape_mismatch.2.2.2.2 schemaScalarField queryField
      [(fieldLabel, .list [])] (.mk fieldLabel [])
      ⟨fieldLabel, .scalar, some (0.005 : ℚ)⟩ [] ?_ rfl rfl rfl
    simp [mergeSelections, childrenOf, queryField, SelectionNode.name,
      SelectionNode.children]

/-- C8: an absent response key, and a `Null` value arriving at a declared
object or list field, contribute nothing and cause no failure and no
descent — the visit returns 0; a `Null` root likewise analyzes to the floor
1. -/
theorem claim_C8_absent_or_null :
    (∀ (s : SchemaModel) (tname : String) (sel : SelectionNode)
        (gs : List (String × ResponseValue)) (mult : ℚ) (fd : FieldDefinition),
        resolveField s tname sel.name = some fd →
        lookupResponseKey gs sel.name = none →
        analyzeVisit s tname sel gs mult = .ok 0) ∧
    (∀ (s : SchemaModel) (tname : String) (sel : SelectionNode)
        (gs : List (String × ResponseValue)) (mult : ℚ) (fd : FieldDefinition)
        (tn : String),
        resolveField s tname sel.name = some fd → fd.type = .object tn →
        lookupResponseKey gs sel.name = some .null →
        analyzeVisit s tname sel gs mult = .ok 0) ∧
    (∀ (s : SchemaModel) (tname : String) (sel : SelectionNode)
        (gs : List (String × ResponseValue)) (mult : ℚ) (fd : FieldDefinition)
        (it : FieldType),
        resolveField s tname sel.name = some fd → fd.type = .list it →
        lookupResponseKey gs sel.name = some .null →
        analyzeVisit s tname sel gs mult = .ok 0) ∧
    (∀ (s : SchemaModel) (q : List SelectionNode),
        analyze s q .null = .ok MIN_SCALE) := by
  refine ⟨?_, ?_, ?_, ?_⟩
  · intro s tname sel gs mult fd hres hlook
    simp only [analyzeVisit, hres, hlook]
  · intro s tname sel gs mult fd tn hres hft hlook
    simp only [analyzeVisit, hres, hlook, hft, analyzeFieldValue]
  · intro s tname sel gs mult fd it hres hft hlook
    simp only [analyzeVisit, hres, hlook, hft, analyzeFieldValue]
  · intro s q
    have hraw : rawAnalyze s q .null = .ok 0 := rfl
    simp only [analyze, hraw]
    rw [clampScale_of_lt_min (by norm_num [MIN_SCALE])]

/-- Schema used by the C8 witness: an object-typed field next to a
list-typed field. -/
def schemaObjAndList : SchemaModel :=
  ⟨[⟨queryTypeName, [⟨fieldLabel, .object queryTypeName, none⟩,
      ⟨cartLinesLabel, .list .scalar, some (0.005 : ℚ)⟩]⟩], queryTypeName⟩

/-- Witness for C8: an absent key, a null object field, and a null list
field each contribute 0, and the null root reports 1. -/
theorem claim_C8_witness :
    analyzeVisit schemaScalarField queryTypeName (.mk fieldLabel []) [] 1 =
      .ok 0 ∧
    analyzeVisit schemaObjAndList queryTypeName (.mk fieldLabel [])
        [(fieldLabel, .null)] 1 = .ok 0 ∧
    analyzeVisit schemaObjAndList queryTypeName (.mk cartLinesLabel [])
        [(cartLinesLabel, .null)] 1 = .ok 0 ∧
    analyze schemaScalarField queryField .null = .ok MIN_SCALE := by
  refine ⟨?_, ?_, ?_, ?_⟩
  · exact claim_C8_absent_or_null.1 schemaScalarField queryTypeName
      (.mk fieldLabel []) [] 1 ⟨fieldLabel, .scalar, some (0.005 : ℚ)⟩ rfl rfl
  · exact claim_C8_absent_or_null.2.1 schemaObjAndList queryTypeName
      (.mk fieldLabel []) [(fieldLabel, .null)] 1
      ⟨fieldLabel, .object queryTypeName, none⟩ queryTypeName rfl rfl rfl
  · exact claim_C8_absent_or_null.2.2.1 schemaObjAndList queryTypeName
      (.mk cartLinesLabel []) [(cartLinesLabel, .null)] 1
      ⟨cartLinesLabel, .list .scalar, some (0.005 : ℚ)⟩ .scalar rfl rfl rfl
  · exact claim_C8_absent_or_null.2.2.2 schemaScalarField queryField

/-- C9: with the schema and query held fixed (and the spec's invariant that
rates are non-negative), making one observed list longer never decreases
the reported scale factor. -/
theorem claim_C9_monotonicity :
    ∀ (s : SchemaModel) (q : List SelectionNode) (v v' : ResponseValue)
      (r r' : ℚ), ratesNonneg s → OneListLonger v v' →
      analyze s q v = .ok r → analyze s q v' = .ok r' → r ≤ r' := by
  intro s q v v' r r' hs hvv h1 h2
  cases hraw1 : rawAnalyze s q v with
  | error e =>
      rw [analyze, hraw1] at h1
      exact Except.noConfusion h1
  | ok x =>
      cases hraw2 : rawAnalyze s q v' with
      | error e =>
          rw [analyze, hraw2] at h2
          exact Except.noConfusion h2
      | ok y =>
          rw [analyze, hraw1] at h1
          rw [analyze, hraw2] at h2
          injection h1 with hh1
          injection h2 with hh2
          rw [← hh1, ← hh2]
          exact clampScale_mono (rawAnalyze_mono s hs hvv.toValueLE hraw1 hraw2)

/-- Witness for C9: the cartLines sample with one element against the same
sample with two extra elements appended; both analyses succeed (factors 1
and 1) and the first factor does not exceed the second. -/
theorem claim_C9_witness :
    ratesNonneg schemaCartLines ∧
    OneListLonger (sampleCartLines 1) (sampleCartLines 3) ∧
    analyze schemaCartLines queryCartLines (sampleCartLines 1) = .ok 1 ∧
    analyze schemaCartLines queryCartLines (sampleCartLines 3) = .ok 1 ∧
    (1 : ℚ) ≤ (1 : ℚ) := by
  have hs : ratesNonneg schemaCartLines := by
    intro td htd fd hfd
    simp only [schemaCartLines, List.mem_singleton] at htd
    subst htd
    simp only [List.mem_singleton] at hfd
    subst hfd
    norm_num [rateOf]
  have hrel : OneListLonger (sampleCartLines 1) (sampleCartLines 3) := by
    show OneListLonger
      (.object ([] ++ (cartLinesLabel, ResponseValue.list [ResponseValue.scalar]) :: []))
      (.object ([] ++ (cartLinesLabel, ResponseValue.list
        ([ResponseValue.scalar] ++ [ResponseValue.scalar, ResponseValue.scalar])) :: []))
    exact OneListLonger.objField [] cartLinesLabel
      (.list [ResponseValue.scalar])
      (.list ([ResponseValue.scalar] ++ [ResponseValue.scalar, ResponseValue.scalar])) []
      (OneListLonger.longer [ResponseValue.scalar]
        [ResponseValue.scalar, ResponseValue.scalar])
  have h1 : analyze schemaCartLines queryCartLines (sampleCartLines 1) = .ok 1 := by
    rw [analyze_cartLines_eval]
    norm_num [clampScale, MIN_SCALE, MAX_SCALE]
  have h3 : analyze schemaCartLines queryCartLines (sampleCartLines 3) = .ok 1 := by
    rw [analyze_cartLines_eval]
    norm_num [clampScale, MIN_SCALE, MAX_SCALE]
  exact ⟨hs, hrel, h1, h3,
    claim_C9_monotonicity schemaCartLines queryCartLines (sampleCartLines 1)
      (sampleCartLines 3) 1 1 hs hrel h1 h3⟩

/-- C10: the `ScaleLimits` analyzer of `main.rs` is a constant function —
`into_output` returns exactly 1 for every visitor state, so the orchestrated
analysis returns 1 for every operation definition, schema definition,
variable values and cache, and the CLI's `analyze_schema_definition` path
computes 1 whenever both the schema and the query parse. -/
theorem claim_C10_constant_one :
    (∀ v : ScaleLimits, v.into_output = 1) ∧
    (∀ (α β γ δ : Type) (steps : List (ScaleLimits → ScaleLimits)) (op : α)
        (sch : β) (vars : γ) (cache : δ),
        ScaleLimitsAnalyzer.analyze steps op sch vars cache = 1) ∧
    (∀ (α β : Type) (pa : Option α) (pb : Option β)
        (steps : List (ScaleLimits → ScaleLimits)),
        main_analyze_schema_definition pa pb steps = none ∨
        main_analyze_schema_definition pa pb steps = some 1) := by
  refine ⟨?_, ?_, ?_⟩
  · intro v
    rfl
  · intro α β γ δ steps op sch vars cache
    rfl
  · intro α β pa pb steps
    cases pa with
    | none => left; rfl
    | some sch =>
        cases pb with
        | none => left; rfl
        | some q =>
            right
            rfl
